import Mathlib

/-!
Verification of the graph-store / network-detection core of the agent-flow
visual editor (`flow-builder.js`).

The JavaScript source keeps editor state in two module-level arrays,
`nodes` and `connections`, mutated in place by event handlers.  The shallow
embedding below passes that state explicitly: every store-mutating handler
becomes a pure function from the store to the store.  Render-only data
(canvas coordinates, SVG path elements, DOM element references) is omitted
from the records, because no store operation or validator reads it.

JavaScript-specific conventions used throughout:
* an absent object field is `Option.none`; JS string truthiness
  (`!s` is true for `undefined` and `""`) is the `truthy` helper below;
* a JS `Set` that is only ever queried for membership is embedded as the
  list of inserted elements;
* `Date.now()`-based fresh ids are nondeterministic in the source, so the
  embedded constructors take the fresh suffix as an explicit argument.
-/

namespace FlowBuilder

/-- One entry of a Router node's `config.keywordPatterns` list
(`flow-builder.js`, default at lines 741-744 and rows built by
`syncPatternsFromUI` / `ensurePatternsMatchOutputPorts`). -/
structure KeywordPattern where
  keyword : String
  port : Nat
  originalType : String
  originalValue : String
  deriving DecidableEq, Repr

/-- The open `config` object of a node.  Only the keys read by the
validators and the Router port bookkeeping are listed; each string-valued
key is `Option String` (`none` = key absent).  `outputPorts` is a JS
number; `keywordPatterns` is `none` when the key is absent (the code
distinguishes an absent list from an empty one: `[]` is truthy in JS). -/
structure Config where
  name : Option String := none
  apiKey : Option String := none
  apiUrl : Option String := none
  model : Option String := none
  accessKey : Option String := none
  secretKey : Option String := none
  region : Option String := none
  port : Option String := none
  endpoint : Option String := none
  routingStrategy : Option String := none
  outputPorts : Option Nat := none
  keywordPatterns : Option (List KeywordPattern) := none
  deriving DecidableEq, Repr

/-- A node of the graph store (`nodeData` pushed at `flow-builder.js:753`).
`type` is one of "agent" | "tool" | "input" | "output" | "router";
`subType` is the agent/tool flavour and `null` otherwise.  The `element`
(DOM handle) and `position` fields are render-only and omitted. -/
structure Node where
  id : String
  type : String
  subType : Option String := none
  config : Config := {}
  deriving DecidableEq, Repr

/-- One endpoint of a stored connection (the `start` / `end` sub-records
built in `createConnection`, lines 1049-1066).  `portNumber` comes from a
`data-port-number` DOM attribute, hence `Option String`; the render-only
`x`/`y` coordinates are omitted. -/
structure ConnEndpoint where
  nodeId : String
  port : String
  portNumber : Option String := none
  deriving DecidableEq, Repr

/-- A stored connection (`connectionData`, `flow-builder.js:1049`).
`endp` embeds the JS field `end` (a Lean keyword).  JS objects are open
maps, so fields can be referenced that were never assigned:
`removeOutputPort` (lines 1824, 1844) reads `connection.sourceNode` and
`connection.sourcePort`, which `createConnection` never sets.  Those two
phantom fields are carried as `Option` values that remain `none` for every
connection the store ever creates. -/
structure ConnData where
  id : String
  start : ConnEndpoint
  endp : ConnEndpoint
  sourceNode : Option String := none
  sourcePort : Option Nat := none
  deriving DecidableEq, Repr

/-- JS truthiness of a possibly-absent string field:
`undefined` and `""` are falsy, everything else truthy. -/
def truthy : Option String → Bool
  | none => false
  | some s => s ≠ ""

/-- JS `!s || s.trim() === ''`: absent, empty or whitespace-only. -/
def blankOpt : Option String → Bool
  | none => true
  | some s => s.trim = ""

/-- `config.outputPorts || 2` — the default applied wherever the Router
port count is read (JS number `0` and `undefined` are both falsy). -/
def portsOrDefault : Option Nat → Nat
  | none => 2
  | some n => if n = 0 then 2 else n

/-! ## Connection creation (`createConnection`, lines 1008-1068)

The duplicate check (lines 1014-1019) compares the two endpoints' node ids
and port kinds in both orientations; if a match exists the function
returns without touching the store.  Otherwise the connection record is
appended.  `uniqueId` stands for the `Date.now()`/`Math.random()` fresh
suffix. -/

def duplicateCheck (start endp : ConnEndpoint) (conn : ConnData) : Bool :=
  (conn.start.nodeId = start.nodeId ∧ conn.endp.nodeId = endp.nodeId ∧
     conn.start.port = start.port ∧ conn.endp.port = endp.port) ∨
  (conn.start.nodeId = endp.nodeId ∧ conn.endp.nodeId = start.nodeId ∧
     conn.start.port = endp.port ∧ conn.endp.port = start.port)

def createConnection (connections : List ConnData) (start endp : ConnEndpoint)
    (uniqueId : String) : List ConnData :=
  let connectionId := "connection-" ++ start.nodeId ++ "-" ++ endp.nodeId ++ "-" ++ uniqueId
  match connections.find? (duplicateCheck start endp) with
  | some _ => connections
  | none =>
      connections ++ [{ id := connectionId, start := start, endp := endp }]

/-! ## The connection gesture (`initNodeEvents` mouseup handler, lines 943-958)

A connection is created only when the two ports belong to different nodes
and their directions are `{input, output}`; if the gesture started on an
input port the endpoints are swapped first, so the stored `start` is
always the output side. -/

def connectionMouseup (connections : List ConnData)
    (connectionStart connectionEnd : ConnEndpoint) (uniqueId : String) : List ConnData :=
  if connectionStart.nodeId ≠ connectionEnd.nodeId ∧
      ((connectionStart.port = "output" ∧ connectionEnd.port = "input") ∨
       (connectionStart.port = "input" ∧ connectionEnd.port = "output")) then
    if connectionStart.port = "input" then
      createConnection connections connectionEnd connectionStart uniqueId
    else
      createConnection connections connectionStart connectionEnd uniqueId
  else connections

/-! ## Node deletion (`deleteSelected`, lines 3237-3253; the per-node delete
button handler at lines 858-876 performs the same store mutation)

All connections incident to the node are collected, each is removed from
the store by id, then the node itself is filtered out. -/

def deleteSelected (nodes : List Node) (connections : List ConnData)
    (nodeId : String) : List Node × List ConnData :=
  let relatedConnections := connections.filter
    (fun conn => conn.start.nodeId = nodeId ∨ conn.endp.nodeId = nodeId)
  let connections' := relatedConnections.foldl
    (fun acc conn => acc.filter (fun c => c.id ≠ conn.id)) connections
  (nodes.filter (fun n => n.id ≠ nodeId), connections')

/-! ## Router output-port operations

`addNewOutputPort` (lines 1701-1742) bumps `config.outputPorts` and adds a
DOM port element; it does not touch `config.keywordPatterns`.  It returns
the 0-based index of the new port (0 when the selected node is not a
router). -/

def addNewOutputPort (selectedNode : Node) : Node × Nat :=
  if selectedNode.type ≠ "router" then (selectedNode, 0)
  else
    let outputPorts := portsOrDefault selectedNode.config.outputPorts
    ({ selectedNode with
        config := { selectedNode.config with outputPorts := some (outputPorts + 1) } },
     outputPorts)

/-- JS `findIndex(p => p.port === portNumber)` followed by `splice(i, 1)`:
drop the first pattern assigned to the given port, keep the rest. -/
def removeFirstWithPort : List KeywordPattern → Nat → List KeywordPattern
  | [], _ => []
  | p :: rest, portNumber =>
      if p.port = portNumber then rest else p :: removeFirstWithPort rest portNumber

/-- The connection-cleanup block of `removeOutputPort` (lines 1820-1848):
drop connections leaving the removed port, then renumber the higher
ports.  It tests `connection.sourceNode` / `connection.sourcePort`,
fields that stored connections do not carry (they use `start`/`endp`),
embedded via the phantom `Option` fields of `ConnData`. -/
def removeOutputPortCleanup (nid : String) (portNumber : Nat)
    (connections : List ConnData) : List ConnData :=
  let connections₁ := connections.filter (fun c =>
    ¬ (c.sourceNode = some nid ∧ c.sourcePort = some portNumber))
  connections₁.map (fun c =>
    if c.sourceNode = some nid ∧
        (match c.sourcePort with | some p => portNumber < p | none => false : Bool) then
      { c with sourcePort := c.sourcePort.map (fun p => p - 1) }
    else c)

/-- `removeOutputPort` (lines 1749-1851).  Returns the JS boolean result
together with the updated node and connection store.  The early `false`
returns (non-router, minimum of 2 ports, missing DOM port element) happen
before any mutation; the DOM holds one `.output-port` element per index
`0 .. outputPorts-1`, so the `portElement` lookup fails exactly when
`portNumber ≥ outputPorts`. -/
def removeOutputPort (selectedNode : Node) (connections : List ConnData)
    (portNumber : Nat) : Bool × Node × List ConnData :=
  if selectedNode.type ≠ "router" then (false, selectedNode, connections)
  else
    let outputPorts := portsOrDefault selectedNode.config.outputPorts
    if outputPorts ≤ 2 then (false, selectedNode, connections)
    else if outputPorts ≤ portNumber then (false, selectedNode, connections)
    else
      let config₁ := { selectedNode.config with outputPorts := some (outputPorts - 1) }
      let config₂ := match config₁.keywordPatterns with
        | none => config₁
        | some patterns =>
            let patterns₁ := removeFirstWithPort patterns portNumber
            let patterns₂ := patterns₁.map (fun p =>
              if portNumber < p.port then { p with port := p.port - 1 } else p)
            { config₁ with keywordPatterns := some patterns₂ }
      (true, { selectedNode with config := config₂ },
       removeOutputPortCleanup selectedNode.id portNumber connections)

/-- Placeholder pattern kind for index `i`, cycling through the five kinds
(`ensurePatternsMatchOutputPorts`, lines 2064-2067). -/
def placeholderType (i : Nat) : String :=
  if i % 5 = 0 then "regex"
  else if i % 5 = 1 then "contains"
  else if i % 5 = 2 then "startsWith"
  else if i % 5 = 3 then "endsWith"
  else "exactMatch"

/-- Placeholder pattern text for index `i` (lines 2069-2073); index 0 gets
the catch-all `.*`. -/
def placeholderPattern (i : Nat) : String :=
  if i = 0 then ".*"
  else if placeholderType i = "regex" then ".*pattern" ++ toString i ++ ".*"
  else if placeholderType i = "contains" then "keyword" ++ toString i
  else if placeholderType i = "startsWith" then "start" ++ toString i
  else if placeholderType i = "endsWith" then "end" ++ toString i
  else "exact" ++ toString i

def placeholderRule (i : Nat) : KeywordPattern :=
  { keyword := placeholderPattern i, port := i,
    originalType := placeholderType i, originalValue := placeholderPattern i }

/-- `ensurePatternsMatchOutputPorts` (lines 2047-2092): pad or truncate the
keyword rule list to the (defaulted, min-2) output-port count. -/
def ensurePatternsMatchOutputPorts (node : Node) : Node :=
  if node.type ≠ "router" then node
  else
    let outputPorts := max 2 (portsOrDefault node.config.outputPorts)
    let patterns := node.config.keywordPatterns.getD []
    if patterns.length ≠ outputPorts then
      let patterns' :=
        if patterns.length < outputPorts then
          patterns ++ (List.range' patterns.length (outputPorts - patterns.length)).map placeholderRule
        else patterns.take outputPorts
      { node with config := { node.config with
          keywordPatterns := some patterns', outputPorts := some outputPorts } }
    else
      { node with config := { node.config with keywordPatterns := some patterns } }

/-- The default Router node configuration installed at node creation
(`flow-builder.js:737-750`; the `portWeights` / `contentTypeMappings`
entries are omitted because no embedded operation reads them). -/
def defaultRouterConfig : Config :=
  { name := some "Router", routingStrategy := some "keyword", outputPorts := some 2,
    keywordPatterns := some
      [ { keyword := ".*", port := 0, originalType := "regex", originalValue := ".*" },
        { keyword := ".*question.*", port := 1, originalType := "regex",
          originalValue := ".*question.*" } ] }

def defaultRouterNode : Node :=
  { id := "node-1", type := "router", config := defaultRouterConfig }

/-- The sequences of Router port operations quantified over in the spec's
invariant: add a port, remove a port, reconcile. -/
inductive RouterOp where
  | addPort : RouterOp
  | removePort : Nat → RouterOp
  | reconcile : RouterOp
  deriving DecidableEq, Repr

def applyRouterOp (st : Node × List ConnData) : RouterOp → Node × List ConnData
  | RouterOp.addPort => ((addNewOutputPort st.1).1, st.2)
  | RouterOp.removePort n =>
      let r := removeOutputPort st.1 st.2 n
      (r.2.1, r.2.2)
  | RouterOp.reconcile => (ensurePatternsMatchOutputPorts st.1, st.2)

def applyRouterOps (ops : List RouterOp) (st : Node × List ConnData) : Node × List ConnData :=
  ops.foldl applyRouterOp st

/-! ## Per-subgraph validation (`validateNetworkSubset`, lines 3579-3644)

A boolean check with sequential early `false` returns.  The agent
configuration loop (lines 3617-3641) is an `else if` chain on `subType`;
a subtype matching none of the five branches imposes no requirement. -/

/-- The body of the agent-configuration loop of `validateNetworkSubset`
for one node: `false` iff the node is an agent whose subtype-specific
required fields are missing (plain JS truthiness, no trimming here). -/
def agentConfigOk (node : Node) : Bool :=
  if node.type = "agent" then
    let config := node.config
    if node.subType = some "openai" ∧ (¬ truthy config.apiKey ∨ ¬ truthy config.model) then
      false
    else if node.subType = some "ollama" ∧
        (¬ truthy config.apiUrl ∨ ¬ truthy config.apiKey ∨ ¬ truthy config.model) then
      false
    else if node.subType = some "anthropic" ∧ (¬ truthy config.apiKey ∨ ¬ truthy config.model) then
      false
    else if node.subType = some "bedrock" ∧
        (¬ truthy config.accessKey ∨ ¬ truthy config.secretKey ∨
         ¬ truthy config.region ∨ ¬ truthy config.model) then
      false
    else if node.subType = some "custom" ∧ (¬ truthy config.port ∧ ¬ truthy config.endpoint) then
      false
    else true
  else true

/-- The `connectedNodeIds` set (lines 3595-3599): every endpoint of every
connection, in insertion order (the JS `Set` is only queried for
membership). -/
def connectedNodeIds (connections : List ConnData) : List String :=
  connections.foldl (fun acc conn => acc ++ [conn.start.nodeId, conn.endp.nodeId]) []

def validateNetworkSubset (networkNodes : List Node)
    (networkConnections : List ConnData) : Bool :=
  let inputNodes := networkNodes.filter (fun node => node.type = "input")
  let outputNodes := networkNodes.filter (fun node => node.type = "output")
  if inputNodes.length = 0 ∨ outputNodes.length = 0 then false
  else if networkConnections.length = 0 then false
  else
    let connected := connectedNodeIds networkConnections
    let inputConnected := inputNodes.any (fun node => node.id ∈ connected)
    let outputConnected := outputNodes.any (fun node => node.id ∈ connected)
    if ¬ inputConnected ∨ ¬ outputConnected then false
    else if networkNodes.any (fun node => node.id ∉ connected) then false
    else networkNodes.all agentConfigOk

/-! ## Whole-store validation (`validateNetwork`, lines 4723-4851)

Unlike the subgraph check, this validator accumulates error strings over
every check and reports `{valid, errors}`; the JS reads the module-level
`nodes` / `connections`, which the embedding passes explicitly. -/

structure ValidationResult where
  valid : Bool
  errors : List String
  deriving DecidableEq, Repr

/-- `node.id.split('-')[1]` interpolated into a template literal; an
out-of-range index interpolates as the string "undefined". -/
def idSuffix (id : String) : String :=
  match (id.splitOn "-").get? 1 with
  | some s => s
  | none => "undefined"

/-- `config.name || 'Unnamed'`. -/
def agentDisplayName (config : Config) : String :=
  match config.name with
  | some s => if s = "" then "Unnamed" else s
  | none => "Unnamed"

/-- `node.config?.name || node.type` (isolated-node message, line 4812). -/
def isolatedDisplayName (node : Node) : String :=
  match node.config.name with
  | some s => if s = "" then node.type else s
  | none => node.type

/-- The error strings pushed for one node by the agent-configuration loop
of `validateNetwork` (lines 4744-4801), in push order. -/
def agentNodeErrors (node : Node) : List String :=
  if node.type = "agent" then
    let config := node.config
    let nm := agentDisplayName config
    (if blankOpt config.name then
        ["Agent node #" ++ idSuffix node.id ++ " needs a name"] else []) ++
    (if node.subType = some "openai" then
        (if blankOpt config.apiKey then
            ["OpenAI agent " ++ nm ++ " is missing API key"] else []) ++
        (if ¬ truthy config.model then
            ["OpenAI agent " ++ nm ++ " is missing model selection"] else [])
     else if node.subType = some "ollama" then
        (if blankOpt config.apiUrl then
            ["Ollama agent " ++ nm ++ " is missing API url"] else []) ++
        (if blankOpt config.apiKey then
            ["Ollama agent " ++ nm ++ " is missing API key"] else []) ++
        (if ¬ truthy config.model then
            ["Ollama agent " ++ nm ++ " is missing model definition"] else [])
     else if node.subType = some "anthropic" then
        (if blankOpt config.apiKey then
            ["Claude agent " ++ nm ++ " is missing API key"] else []) ++
        (if ¬ truthy config.model then
            ["Claude agent " ++ nm ++ " is missing model selection"] else [])
     else if node.subType = some "bedrock" then
        (if blankOpt config.accessKey ∨ blankOpt config.secretKey then
            ["Bedrock agent " ++ nm ++ " is missing AWS credentials"] else []) ++
        (if ¬ truthy config.region then
            ["Bedrock agent " ++ nm ++ " is missing AWS region"] else []) ++
        (if ¬ truthy config.model then
            ["Bedrock agent " ++ nm ++ " is missing model selection"] else [])
     else if node.subType = some "custom" then
        (if ¬ truthy config.port ∧ blankOpt config.endpoint then
            ["Custom agent " ++ nm ++ " needs either a port or endpoint URL"] else [])
     else [])
  else []

def validateNetwork (nodes : List Node) (connections : List ConnData) : ValidationResult :=
  let inputNodes := nodes.filter (fun node => node.type = "input")
  let outputNodes := nodes.filter (fun node => node.type = "output")
  let errors : List String := []
  let errors := errors ++
    (if inputNodes.length = 0 then ["Please add an input node to your network"] else [])
  let errors := errors ++
    (if outputNodes.length = 0 then ["Please add an output node to your network"] else [])
  let errors := errors ++
    (if connections.length = 0 then ["Please connect nodes in your network"] else [])
  let errors := nodes.foldl (fun acc node => acc ++ agentNodeErrors node) errors
  let connected := connectedNodeIds connections
  let errors := nodes.foldl (fun acc node =>
    acc ++ (if node.id ∉ connected then
      ["Node " ++ isolatedDisplayName node ++ " is not connected to any other node"] else []))
    errors
  let inputNodeIds := inputNodes.map Node.id
  let outputNodeIds := outputNodes.map Node.id
  let inputConnected := inputNodeIds.any (fun id => id ∈ connected)
  let errors := errors ++
    (if ¬ inputConnected ∧ 0 < inputNodeIds.length then
      ["Input node is not connected to the network"] else [])
  let outputConnected := outputNodeIds.any (fun id => id ∈ connected)
  let errors := errors ++
    (if ¬ outputConnected ∧ 0 < outputNodeIds.length then
      ["Output node is not connected to the network"] else [])
  { valid := errors.length = 0, errors := errors }

/-! ## Execution-status polling (`pollExecutionStatus`, lines 4183-4330)

`checkStatus` increments `pollCount`, issues one status request, and —
unless the status is terminal (`COMPLETED`/`FAILED`) or the 60-request cap
is reached — schedules itself again.  A rejected fetch lands in the
`catch` handler, which keeps polling while under the cap.  The response
stream is the only environment input; the embedding indexes it by request
number and records how many requests were issued and how the loop ended.
The ~1-second spacing is the `interval` argument handed to `setTimeout`
(default 1000 ms) and has no functional effect on the request count. -/

inductive PollResponse where
  | ok : String → PollResponse
  | err : PollResponse
  deriving DecidableEq, Repr

inductive PollOutcome where
  | completed : PollOutcome
  | failed : PollOutcome
  | timeout : PollOutcome
  | errorStopped : PollOutcome
  deriving DecidableEq, Repr

structure PollResult where
  fetches : Nat
  outcome : PollOutcome
  deriving DecidableEq, Repr

def maxPolls : Nat := 60

/-- One `checkStatus` activation with `pollCount` previous requests
already issued; returns the state when the poll chain stops. -/
def checkStatus (responses : Nat → PollResponse) (pollCount : Nat) : PollResult :=
  let count := pollCount + 1
  match responses pollCount with
  | PollResponse.ok status =>
      if status = "COMPLETED" then { fetches := count, outcome := PollOutcome.completed }
      else if status = "FAILED" then { fetches := count, outcome := PollOutcome.failed }
      else if maxPolls ≤ count then { fetches := count, outcome := PollOutcome.timeout }
      else checkStatus responses count
  | PollResponse.err =>
      if count < maxPolls then checkStatus responses count
      else { fetches := count, outcome := PollOutcome.errorStopped }
termination_by maxPolls - pollCount
decreasing_by
  all_goals simp_all [maxPolls]
  all_goals omega

def pollExecutionStatus (responses : Nat → PollResponse) : PollResult :=
  checkStatus responses 0

/-! ## Network detection (`detectMultipleNetworks`, lines 3482-3571)

An adjacency list over node ids is built from the connections (both
directions per connection), then a recursive depth-first search collects
each connected component, seeded from each store node in insertion order.
Components with at least 3 nodes, an input node, an output node, and a
passing `validateNetworkSubset` are emitted, with the induced connection
subset.

The JS `dfs` recursion consumes no explicit fuel; here each node entry
spends one unit, and `detectMultipleNetworks` supplies `nodes.length`,
which the proofs show is enough fuel that it is never exhausted (every
visit consumes one still-unvisited node id). -/

/-- The adjacency list (lines 3496-3505): neighbours of `x`, in the order
the connections insert them.  JS would throw on a connection whose
endpoint id has no list (`adjacencyList.get(...)` is `undefined`), so the
theorems assume every endpoint is a store node id. -/
def adjacency (connections : List ConnData) (x : String) : List String :=
  connections.foldl (fun acc conn =>
    let acc := if conn.start.nodeId = x then acc ++ [conn.endp.nodeId] else acc
    if conn.endp.nodeId = x then acc ++ [conn.start.nodeId] else acc) []

/-- The mutable traversal state of `detectMultipleNetworks`: the
`visitedNodes` map (as the list of ids marked true) and the
`networkNodes` accumulator of the current component. -/
structure DfsState where
  visited : List String
  comp : List String
  deriving DecidableEq, Repr

mutual

/-- The recursive `dfs` helper (lines 3508-3519): mark the node visited,
record it in the current component, then recurse into each unvisited
neighbour in adjacency-list order. -/
def dfsNode (adj : String → List String) : Nat → String → DfsState → DfsState
  | 0, _, st => st
  | fuel + 1, nodeId, st =>
      dfsList adj fuel (adj nodeId) ⟨nodeId :: st.visited, st.comp ++ [nodeId]⟩

/-- The `forEach` over a neighbour list inside `dfs`, with the visited
check performed when each neighbour's turn comes. -/
def dfsList (adj : String → List String) : Nat → List String → DfsState → DfsState
  | _, [], st => st
  | fuel, a :: rest, st =>
      dfsList adj fuel rest (if a ∈ st.visited then st else dfsNode adj fuel a st)

end

/-- A node record as serialized into a detected network (lines 3549-3555,
minus the render-only `position`). -/
structure NetNode where
  id : String
  type : String
  subType : Option String
  config : Config
  deriving DecidableEq, Repr

/-- A connection record as serialized into a detected network (lines
3556-3561); `sourcePort`/`targetPort` receive the port kind strings. -/
structure NetConn where
  sourceNode : String
  sourcePort : String
  targetNode : String
  targetPort : String
  deriving DecidableEq, Repr

structure Network where
  name : String
  nodes : List NetNode
  connections : List NetConn
  nodeCount : Nat
  connectionCount : Nat
  deriving DecidableEq, Repr

def projNode (node : Node) : NetNode :=
  { id := node.id, type := node.type, subType := node.subType, config := node.config }

def projConn (conn : ConnData) : NetConn :=
  { sourceNode := conn.start.nodeId, sourcePort := conn.start.port,
    targetNode := conn.endp.nodeId, targetPort := conn.endp.port }

/-- The body of the component loop (lines 3522-3568) for one store node;
`nodes.find` on a component id is embedded with `filterMap`/`find?`
(identical when every component id is a store id, which the wf hypotheses
guarantee). -/
def detectStep (nodes : List Node) (connections : List ConnData)
    (adj : String → List String) (node : Node) (visited : List String)
    (networks : List Network) : List String × List Network :=
  if node.id ∈ visited then (visited, networks)
  else
    let st := dfsNode adj nodes.length node.id ⟨visited, []⟩
    let networkNodes := st.comp
    let networkNodeObjects := networkNodes.filterMap
      (fun nodeId => nodes.find? (fun n => n.id = nodeId))
    let hasInput := networkNodeObjects.any (fun node => node.type = "input")
    let hasOutput := networkNodeObjects.any (fun node => node.type = "output")
    let networks' :=
      if hasInput ∧ hasOutput ∧ 3 ≤ networkNodes.length then
        let networkConnections := connections.filter (fun conn =>
          conn.start.nodeId ∈ networkNodes ∧ conn.endp.nodeId ∈ networkNodes)
        if validateNetworkSubset networkNodeObjects networkConnections then
          networks ++ [{
            name := "Network " ++ toString (networks.length + 1),
            nodes := networkNodeObjects.map projNode,
            connections := networkConnections.map projConn,
            nodeCount := networkNodes.length,
            connectionCount := networkConnections.length }]
        else networks
      else networks
    (st.visited, networks')

def detectLoop (nodes : List Node) (connections : List ConnData)
    (adj : String → List String) :
    List Node → List String → List Network → List Network
  | [], _, networks => networks
  | node :: rest, visited, networks =>
      let r := detectStep nodes connections adj node visited networks
      detectLoop nodes connections adj rest r.1 r.2

def detectMultipleNetworks (nodes : List Node) (connections : List ConnData) :
    List Network :=
  if nodes.length = 0 ∨ connections.length = 0 then []
  else detectLoop nodes connections (adjacency connections) nodes [] []

/-! ## Helper lemmas: connection store -/

theorem duplicateCheck_swap (a b : ConnEndpoint) (c : ConnData) :
    duplicateCheck a b c = true ↔ duplicateCheck b a c = true := by
  simp only [duplicateCheck, decide_eq_true_eq]
  tauto

theorem createConnection_mem {conns : List ConnData} {s e : ConnEndpoint} {u : String}
    {c : ConnData} (hc : c ∈ createConnection conns s e u) :
    c ∈ conns ∨ (c.start = s ∧ c.endp = e) := by
  unfold createConnection at hc
  cases hfind : conns.find? (duplicateCheck s e) with
  | some d => rw [hfind] at hc; exact Or.inl hc
  | none =>
      rw [hfind] at hc
      rcases List.mem_append.mp hc with h | h
      · exact Or.inl h
      · rcases List.mem_singleton.mp h with rfl
        exact Or.inr ⟨rfl, rfl⟩

/-- After any `createConnection conns a b u` call, the store contains a
connection passing the duplicate check for `(a, b)`. -/
theorem createConnection_has_dup (conns : List ConnData) (a b : ConnEndpoint) (u : String) :
    ∃ c ∈ createConnection conns a b u, duplicateCheck a b c = true := by
  unfold createConnection
  cases hfind : conns.find? (duplicateCheck a b) with
  | some d =>
      exact ⟨d, List.mem_of_find?_eq_some hfind, List.find?_some hfind⟩
  | none =>
      refine ⟨_, List.mem_append_right _ (List.mem_singleton_self _), ?_⟩
      simp [duplicateCheck]

/-- If the store already holds a connection passing the duplicate check,
`createConnection` is the identity. -/
theorem createConnection_noop {conns : List ConnData} {a b : ConnEndpoint}
    (h : ∃ c ∈ conns, duplicateCheck a b c = true) (u : String) :
    createConnection conns a b u = conns := by
  unfold createConnection
  cases hfind : conns.find? (duplicateCheck a b) with
  | some d => rfl
  | none =>
      rcases h with ⟨c, hc, hdup⟩
      exact absurd hdup (by simpa using List.find?_eq_none.mp hfind c hc)

/-- C5. For all port references `a`, `b`, repeating `addConnection(a,b)` —
in either orientation — leaves the connection count unchanged: the
duplicate check suppresses the second request as a no-op. -/
theorem createConnection_duplicate_suppressed (conns : List ConnData)
    (a b : ConnEndpoint) (u₁ u₂ u₃ : String) :
    (createConnection (createConnection conns a b u₁) a b u₂).length
        = (createConnection conns a b u₁).length ∧
    (createConnection (createConnection conns a b u₁) b a u₃).length
        = (createConnection conns a b u₁).length := by
  obtain ⟨c, hc, hdup⟩ := createConnection_has_dup conns a b u₁
  constructor
  · rw [createConnection_noop ⟨c, hc, hdup⟩ u₂]
  · rw [createConnection_noop ⟨c, hc, (duplicateCheck_swap a b c).mp hdup⟩ u₃]

/-- C6. Every connection the mouseup gesture stores either was already in
the store or joins an output port to an input port of a different node
(the gesture swaps the endpoints when it started on an input port). -/
theorem connectionMouseup_normalized (conns : List ConnData)
    (connectionStart connectionEnd : ConnEndpoint) (u : String) :
    ∀ c ∈ connectionMouseup conns connectionStart connectionEnd u,
      c ∈ conns ∨
        (c.start.port = "output" ∧ c.endp.port = "input" ∧
         c.start.nodeId ≠ c.endp.nodeId) := by
  intro c hc
  unfold connectionMouseup at hc
  split at hc
  case isTrue hcond =>
    obtain ⟨hne, hdir⟩ := hcond
    split at hc
    case isTrue hin =>
      rcases createConnection_mem hc with h | ⟨h₁, h₂⟩
      · exact Or.inl h
      · rcases hdir with ⟨h₃, _⟩ | ⟨_, h₄⟩
        · rw [hin] at h₃; exact absurd h₃ (by decide)
        · exact Or.inr (by rw [h₁, h₂]; exact ⟨h₄, hin, fun h => hne h.symm⟩)
    case isFalse hin =>
      rcases createConnection_mem hc with h | ⟨h₁, h₂⟩
      · exact Or.inl h
      · rcases hdir with ⟨h₃, h₄⟩ | ⟨h₃, _⟩
        · exact Or.inr (by rw [h₁, h₂]; exact ⟨h₃, h₄, hne⟩)
        · exact absurd h₃ hin
  case isFalse => exact Or.inl hc

/-- Witness: the gesture dragged from an input port of `node-2` to an output
port of `node-1` stores one connection, normalized output-to-input, and the
C6 dichotomy holds for it. -/
theorem connectionMouseup_normalized_witness :
    ({ id := "connection-node-1-node-2-u9",
       start := { nodeId := "node-1", port := "output" },
       endp := { nodeId := "node-2", port := "input" } } : ConnData) ∈
      connectionMouseup [] { nodeId := "node-2", port := "input" }
        { nodeId := "node-1", port := "output" } "u9" ∧
    (({ id := "connection-node-1-node-2-u9",
        start := { nodeId := "node-1", port := "output" },
        endp := { nodeId := "node-2", port := "input" } } : ConnData) ∈ ([] : List ConnData) ∨
      ("output" = "output" ∧ "input" = "input" ∧ ("node-1" : String) ≠ "node-2")) :=
  ⟨by decide,
    connectionMouseup_normalized [] { nodeId := "node-2", port := "input" }
      { nodeId := "node-1", port := "output" } "u9"
      { id := "connection-node-1-node-2-u9",
        start := { nodeId := "node-1", port := "output" },
        endp := { nodeId := "node-2", port := "input" } } (by decide)⟩

/-! ## Helper lemmas: node deletion -/

theorem foldl_filter_id_mem {rel : List ConnData} :
    ∀ {l : List ConnData} {x : ConnData},
      x ∈ rel.foldl (fun acc conn => acc.filter (fun c => c.id ≠ conn.id)) l →
      x ∈ l ∧ ∀ conn ∈ rel, x.id ≠ conn.id := by
  induction rel with
  | nil => intro l x hx; exact ⟨hx, by simp⟩
  | cons r rest ih =>
      intro l x hx
      obtain ⟨hx', hrest⟩ := ih hx
      obtain ⟨hxl, hne⟩ := List.mem_filter.mp hx'
      refine ⟨hxl, ?_⟩
      intro conn hconn
      rcases List.mem_cons.mp hconn with rfl | h
      · simpa using hne
      · exact hrest conn h

/-- C7. `removeNode` cascades: immediately after deleting a node, no
connection whose `start` or `endp` references that node remains, and the
node itself is gone. -/
theorem deleteSelected_cascades (nodes : List Node) (connections : List ConnData)
    (nodeId : String) :
    (∀ c ∈ (deleteSelected nodes connections nodeId).2,
        c.start.nodeId ≠ nodeId ∧ c.endp.nodeId ≠ nodeId) ∧
    (∀ n ∈ (deleteSelected nodes connections nodeId).1, n.id ≠ nodeId) := by
  constructor
  · intro c hc
    obtain ⟨hcl, hne⟩ := foldl_filter_id_mem hc
    constructor
    · intro hstart
      exact hne c (List.mem_filter.mpr ⟨hcl, by simp [hstart]⟩) rfl
    · intro hend
      exact hne c (List.mem_filter.mpr ⟨hcl, by simp [hend]⟩) rfl
  · intro n hn
    simpa using (List.mem_filter.mp hn).2

/-! ## Helper lemmas: router minimum port count -/

/-- C8. `removeOutputPort` on a router at (or below) the 2-port minimum is
rejected with `false` and leaves the node and the connection store
untouched. -/
theorem removeOutputPort_min_rejected (node : Node) (connections : List ConnData)
    (portNumber : Nat) (h : portsOrDefault node.config.outputPorts ≤ 2) :
    removeOutputPort node connections portNumber = (false, node, connections) := by
  unfold removeOutputPort
  split
  · rfl
  · simp only [if_pos h]

/-- Witness for C8: the freshly created default router (2 ports) rejects
port removal and is returned unchanged. -/
theorem removeOutputPort_min_rejected_witness :
    portsOrDefault defaultRouterNode.config.outputPorts ≤ 2 ∧
    removeOutputPort defaultRouterNode [] 0 = (false, defaultRouterNode, []) :=
  ⟨by decide, removeOutputPort_min_rejected defaultRouterNode [] 0 (by decide)⟩

/-! ## C9: the connection-cleanup block of `removeOutputPort` is dead code

Stored connections carry their endpoints in `start` / `endp`
(`createConnection`, line 1049), but the cleanup block of
`removeOutputPort` (lines 1820-1848) tests `connection.sourceNode` and
`connection.sourcePort` — fields no stored connection has, so the test
reads `undefined` and never matches.  Consequently no connection is ever
removed or renumbered by a port removal, contradicting the block's own
comment ("Remove any connections to this port"). -/

/-- A three-port router (default router + one added port, reconciled). -/
def threePortRouter : Node :=
  ensurePatternsMatchOutputPorts (addNewOutputPort defaultRouterNode).1

/-- A connection leaving `threePortRouter`'s output port 2. -/
def connFromPort2 : ConnData :=
  { id := "connection-node-1-node-9-u7",
    start := { nodeId := "node-1", port := "output", portNumber := some "2" },
    endp := { nodeId := "node-9", port := "input" } }

/-- The connection-cleanup block of `removeOutputPort` is the identity on
any store whose connections lack the phantom `sourceNode` field. -/
theorem removeOutputPort_cleanup_noop (nid : String) (pn : Nat) :
    ∀ (cs : List ConnData), (∀ c ∈ cs, c.sourceNode = none) →
    removeOutputPortCleanup nid pn cs = cs := by
  intro cs
  induction cs with
  | nil => intro _; rfl
  | cons c rest ih =>
      intro h
      have hc : c.sourceNode = none := h c (List.mem_cons_self c rest)
      have hrest := ih (fun x hx => h x (List.mem_cons_of_mem c hx))
      unfold removeOutputPortCleanup at hrest ⊢
      simpa [hc] using hrest

/-- C9 (code bug).  `createConnection` never assigns the
`sourceNode`/`sourcePort` fields, and whenever every stored connection
lacks them — i.e. always — `removeOutputPort` returns the connection
store unchanged, even for connections attached to the removed port. -/
theorem removeOutputPort_leaves_connections (node : Node) (connections : List ConnData)
    (portNumber : Nat) (h : ∀ c ∈ connections, c.sourceNode = none) :
    (removeOutputPort node connections portNumber).2.2 = connections ∧
    (∀ conns (s e : ConnEndpoint) u, ∀ c ∈ createConnection conns s e u,
        c ∈ conns ∨ c.sourceNode = none) := by
  constructor
  · by_cases ht : node.type ≠ "router"
    · simp [removeOutputPort, ht]
    · by_cases h2 : portsOrDefault node.config.outputPorts ≤ 2
      · simp [removeOutputPort, ht, h2]
      · by_cases h3 : portsOrDefault node.config.outputPorts ≤ portNumber
        · simp [removeOutputPort, ht, h2, h3]
        · have key := removeOutputPort_cleanup_noop node.id portNumber connections h
          simp only [removeOutputPort, if_neg ht, if_neg h2, if_neg h3]
          exact key
  · intro conns s e u c hc
    unfold createConnection at hc
    cases hfind : conns.find? (duplicateCheck s e) with
    | some d => rw [hfind] at hc; exact Or.inl hc
    | none =>
        rw [hfind] at hc
        rcases List.mem_append.mp hc with h'' | h''
        · exact Or.inl h''
        · rcases List.mem_singleton.mp h'' with rfl
          exact Or.inr rfl

/-- Witness for C9's theorem at the failing input: removing port 2 of a
three-port router reports success yet leaves the connection out of that
very port in the store (still labelled port "2"). -/
theorem removeOutputPort_leaves_connections_witness :
    (∀ c ∈ [connFromPort2], c.sourceNode = none) ∧
    ((removeOutputPort threePortRouter [connFromPort2] 2).2.2 = [connFromPort2] ∧
     (∀ conns (s e : ConnEndpoint) u, ∀ c ∈ createConnection conns s e u,
        c ∈ conns ∨ c.sourceNode = none)) ∧
    (removeOutputPort threePortRouter [connFromPort2] 2).1 = true :=
  ⟨by decide,
   removeOutputPort_leaves_connections threePortRouter [connFromPort2] 2 (by decide),
   by decide⟩

/-! ## C10: agents of unknown subtype escape the subgraph validator -/

theorem agentConfigOk_unknown_subtype {n : Node}
    (h₁ : n.subType ≠ some "openai") (h₂ : n.subType ≠ some "ollama")
    (h₃ : n.subType ≠ some "anthropic") (h₄ : n.subType ≠ some "bedrock")
    (h₅ : n.subType ≠ some "custom") :
    agentConfigOk n = true := by
  unfold agentConfigOk
  split
  · simp [h₁, h₂, h₃, h₄, h₅]
  · rfl

/-- C10.  An agent node whose `subType` matches none of the five known
flavours passes the agent-configuration loop unconditionally, and
replacing its `config` by anything (including `{}`) cannot change the
result of `validateNetworkSubset`. -/
theorem validateNetworkSubset_ignores_unknown_agent
    (pre post : List Node) (cs : List ConnData) (n : Node) (cfg : Config)
    (htype : n.type = "agent")
    (h₁ : n.subType ≠ some "openai") (h₂ : n.subType ≠ some "ollama")
    (h₃ : n.subType ≠ some "anthropic") (h₄ : n.subType ≠ some "bedrock")
    (h₅ : n.subType ≠ some "custom") :
    agentConfigOk n = true ∧
    validateNetworkSubset (pre ++ n :: post) cs
      = validateNetworkSubset (pre ++ { n with config := cfg } :: post) cs := by
  have hok := agentConfigOk_unknown_subtype h₁ h₂ h₃ h₄ h₅
  have hok' : agentConfigOk { n with config := cfg } = true :=
    agentConfigOk_unknown_subtype (n := { n with config := cfg }) h₁ h₂ h₃ h₄ h₅
  refine ⟨hok, ?_⟩
  unfold validateNetworkSubset
  have hinput : (pre ++ n :: post).filter (fun node => node.type = "input")
      = (pre ++ { n with config := cfg } :: post).filter (fun node => node.type = "input") := by
    simp [List.filter_append, htype]
  have houtput : (pre ++ n :: post).filter (fun node => node.type = "output")
      = (pre ++ { n with config := cfg } :: post).filter (fun node => node.type = "output") := by
    simp [List.filter_append, htype]
  rw [hinput, houtput]
  have hany : ∀ connected : List String,
      (pre ++ n :: post).any (fun node => node.id ∉ connected)
        = (pre ++ { n with config := cfg } :: post).any (fun node => node.id ∉ connected) := by
    intro connected
    simp [List.any_append]
  have hall : (pre ++ n :: post).all agentConfigOk
      = (pre ++ { n with config := cfg } :: post).all agentConfigOk := by
    simp [List.all_append, hok, hok']
  simp only [hany, hall]

/-- Witness for C10 at a concrete store: an agent with subtype "mystery"
and empty config does not block validation. -/
theorem validateNetworkSubset_ignores_unknown_agent_witness :
    (({ id := "node-2", type := "agent", subType := some "mystery" } : Node).type = "agent") ∧
    (agentConfigOk { id := "node-2", type := "agent", subType := some "mystery" } = true ∧
     validateNetworkSubset
        ([{ id := "node-1", type := "input" }] ++
          ({ id := "node-2", type := "agent", subType := some "mystery" } : Node) ::
            [{ id := "node-3", type := "output" }]) []
       = validateNetworkSubset
          ([{ id := "node-1", type := "input" }] ++
            ({ id := "node-2", type := "agent", subType := some "mystery",
                config := { apiKey := some "k" } } : Node) ::
              [{ id := "node-3", type := "output" }]) []) :=
  ⟨rfl,
   validateNetworkSubset_ignores_unknown_agent
     [{ id := "node-1", type := "input" }] [{ id := "node-3", type := "output" }] []
     { id := "node-2", type := "agent", subType := some "mystery" }
     { apiKey := some "k" }
     rfl (by decide) (by decide) (by decide) (by decide) (by decide)⟩

/-! ## C4: the poll loop caps at 60 requests -/

/-- A response that stops the poll chain: a successfully parsed status of
`COMPLETED` or `FAILED`.  Rejected fetches are not terminal — the `catch`
handler keeps polling while under the cap. -/
def isTerminal : PollResponse → Bool
  | PollResponse.ok status => status = "COMPLETED" ∨ status = "FAILED"
  | PollResponse.err => false

theorem checkStatus_fetches_le (responses : Nat → PollResponse) :
    ∀ m k, k + m + 1 = maxPolls → (checkStatus responses k).fetches ≤ maxPolls := by
  intro m
  induction m with
  | zero =>
      intro k hk
      unfold checkStatus
      cases responses k with
      | ok status =>
          simp only
          split
          · show k + 1 ≤ maxPolls; omega
          · split
            · show k + 1 ≤ maxPolls; omega
            · rw [if_pos (by omega)]
              show k + 1 ≤ maxPolls; omega
      | err =>
          simp only
          rw [if_neg (by omega)]
          show k + 1 ≤ maxPolls; omega
  | succ m ih =>
      intro k hk
      unfold checkStatus
      cases responses k with
      | ok status =>
          simp only
          split
          · show k + 1 ≤ maxPolls; omega
          · split
            · show k + 1 ≤ maxPolls; omega
            · split
              · show k + 1 ≤ maxPolls; omega
              · exact ih (k + 1) (by omega)
      | err =>
          simp only
          split
          · exact ih (k + 1) (by omega)
          · show k + 1 ≤ maxPolls; omega

theorem checkStatus_nonterminal (responses : Nat → PollResponse)
    (hnt : ∀ i, i < maxPolls → isTerminal (responses i) = false) :
    ∀ m k, k + m + 1 = maxPolls →
      (checkStatus responses k).fetches = maxPolls ∧
      ((∀ i, i < maxPolls → responses i ≠ PollResponse.err) →
        (checkStatus responses k).outcome = PollOutcome.timeout) := by
  intro m
  induction m with
  | zero =>
      intro k hk
      have hklt : k < maxPolls := by omega
      have hterm := hnt k hklt
      unfold checkStatus
      cases hr : responses k with
      | ok status =>
          rw [hr] at hterm
          simp only [isTerminal, decide_eq_false_iff_not, not_or] at hterm
          obtain ⟨hC, hF⟩ := hterm
          simp only
          rw [if_neg hC, if_neg hF, if_pos (by omega)]
          exact ⟨by show k + 1 = maxPolls; omega, fun _ => rfl⟩
      | err =>
          simp only
          rw [if_neg (by omega)]
          exact ⟨by show k + 1 = maxPolls; omega, fun hne => absurd hr (hne k hklt)⟩
  | succ m ih =>
      intro k hk
      have hklt : k < maxPolls := by omega
      have hterm := hnt k hklt
      have hrec := ih (k + 1) (by omega)
      unfold checkStatus
      cases hr : responses k with
      | ok status =>
          rw [hr] at hterm
          simp only [isTerminal, decide_eq_false_iff_not, not_or] at hterm
          obtain ⟨hC, hF⟩ := hterm
          simp only
          rw [if_neg hC, if_neg hF, if_neg (by omega)]
          exact hrec
      | err =>
          simp only
          rw [if_pos (by omega)]
          exact hrec

/-- C4.  If no terminal status arrives within the first 60 responses, the
poll loop issues exactly 60 status requests and stops; with the endpoint
always answering `RUNNING` the loop ends in the timeout state, which is
distinct from the failure state; and no response stream whatsoever can
make the loop issue a 61st request.  (Transient per-tick fetch errors are
non-terminal, so they keep the loop running to the cap.) -/
theorem pollExecutionStatus_cap (responses : Nat → PollResponse)
    (hnt : ∀ i, i < 60 → isTerminal (responses i) = false) :
    (pollExecutionStatus responses).fetches = 60 ∧
    ((∀ i, i < 60 → responses i = PollResponse.ok "RUNNING") →
      (pollExecutionStatus responses).outcome = PollOutcome.timeout) ∧
    PollOutcome.timeout ≠ PollOutcome.failed ∧
    (∀ g : Nat → PollResponse, (pollExecutionStatus g).fetches ≤ 60) := by
  have h := checkStatus_nonterminal responses (by simpa [maxPolls] using hnt) 59 0 (by rfl)
  refine ⟨by simpa [maxPolls, pollExecutionStatus] using h.1, ?_, by decide, ?_⟩
  · intro hrun
    refine h.2 ?_
    intro i hi
    rw [hrun i (by simpa [maxPolls] using hi)]
    simp
  · intro g
    simpa [maxPolls, pollExecutionStatus] using checkStatus_fetches_le g 59 0 (by rfl)

/-- Witness for C4: the constant `RUNNING` stream satisfies the
non-terminal hypothesis and the loop times out after exactly 60 polls. -/
theorem pollExecutionStatus_cap_witness :
    (∀ i, i < 60 → isTerminal ((fun _ => PollResponse.ok "RUNNING") i) = false) ∧
    ((pollExecutionStatus (fun _ => PollResponse.ok "RUNNING")).fetches = 60 ∧
     ((∀ i, i < 60 → (fun _ => PollResponse.ok "RUNNING") i = PollResponse.ok "RUNNING") →
       (pollExecutionStatus (fun _ => PollResponse.ok "RUNNING")).outcome = PollOutcome.timeout) ∧
     PollOutcome.timeout ≠ PollOutcome.failed ∧
     (∀ g : Nat → PollResponse, (pollExecutionStatus g).fetches ≤ 60)) :=
  ⟨fun _ _ => by simp [isTerminal],
   pollExecutionStatus_cap (fun _ => PollResponse.ok "RUNNING")
     (fun _ _ => by simp [isTerminal])⟩

/-! ## C3: Router port/rule bookkeeping

The invariant provable from the code: the port count stays `≥ 2` and the
keyword rule at list position `i` always targets port `i` (expressed as
`portsOf pats = range pats.length`).  The rule-list *length* matches
`outputPorts` only right after `ensurePatternsMatchOutputPorts`;
`addNewOutputPort` bumps the count without appending a rule. -/

def portsOf (pats : List KeywordPattern) : List Nat :=
  pats.map KeywordPattern.port

def RouterInv (node : Node) : Prop :=
  (∃ k, node.config.outputPorts = some k ∧ 2 ≤ k) ∧
  (∀ pats, node.config.keywordPatterns = some pats →
    portsOf pats = List.range pats.length)

/-- Decrementing every port above `pn` shifts a contiguous block that
starts above `pn` down by one. -/
theorem dec_ports_of_range' :
    ∀ (pats : List KeywordPattern) (pn t : Nat), pn < t →
      portsOf pats = List.range' t pats.length →
      portsOf (pats.map (fun p =>
          if pn < p.port then { p with port := p.port - 1 } else p))
        = List.range' (t - 1) pats.length := by
  intro pats
  induction pats with
  | nil => intro pn t _ _; rfl
  | cons p rest ih =>
      intro pn t hlt h
      simp only [portsOf, List.map_cons, List.length_cons, List.range'_succ,
        List.cons.injEq] at h
      obtain ⟨hp, hrest⟩ := h
      have hrec := ih pn (t + 1) (by omega) hrest
      simp only [portsOf, List.map_cons, List.map_map] at hrec ⊢
      rw [List.length_cons, List.range'_succ]
      rw [List.cons_eq_cons]
      constructor
      · rw [if_pos (by rw [hp]; exact hlt)]
        simp [hp]
      · have ht1 : t - 1 + 1 = t + 1 - 1 := by omega
        rw [ht1]
        exact hrec

/-- The `findIndex`/`splice` removal followed by the port decrement keeps
the rule list's ports equal to its positions. -/
theorem removeFirst_dec_ports :
    ∀ (pats : List KeywordPattern) (pn s : Nat), s ≤ pn →
      portsOf pats = List.range' s pats.length →
      portsOf ((removeFirstWithPort pats pn).map (fun p =>
          if pn < p.port then { p with port := p.port - 1 } else p))
        = List.range' s ((removeFirstWithPort pats pn).length) := by
  intro pats
  induction pats with
  | nil => intro pn s _ _; rfl
  | cons p rest ih =>
      intro pn s hle h
      simp only [portsOf, List.map_cons, List.length_cons, List.range'_succ,
        List.cons.injEq] at h
      obtain ⟨hp, hrest⟩ := h
      unfold removeFirstWithPort
      by_cases hport : p.port = pn
      · rw [if_pos hport]
        have hs : s = pn := by omega
        rw [hs] at hrest ⊢
        have hd := dec_ports_of_range' rest pn (pn + 1) (by omega) hrest
        simpa using hd
      · rw [if_neg hport]
        have hslt : s < pn := by omega
        have hrec := ih pn (s + 1) (by omega) hrest
        simp only [portsOf, List.map_cons, List.map_map] at hrec ⊢
        rw [List.length_cons, List.range'_succ]
        rw [List.cons_eq_cons]
        constructor
        · rw [if_neg (by omega)]
          exact hp
        · exact hrec

theorem placeholder_ports (a b : Nat) :
    portsOf ((List.range' a b).map placeholderRule) = List.range' a b := by
  simp only [portsOf, List.map_map]
  have : (KeywordPattern.port ∘ placeholderRule) = id := by
    funext i; rfl
  rw [this, List.map_id]

theorem portsOrDefault_of_some {k : Nat} (hk2 : 2 ≤ k) :
    portsOrDefault (some k) = k := by
  simp only [portsOrDefault]
  split <;> omega

theorem addNewOutputPort_inv {node : Node} (h : RouterInv node) :
    RouterInv (addNewOutputPort node).1 := by
  unfold addNewOutputPort
  split
  · exact h
  · obtain ⟨⟨k, hk, hk2⟩, hpats⟩ := h
    refine ⟨⟨portsOrDefault node.config.outputPorts + 1, rfl, ?_⟩, ?_⟩
    · rw [hk, portsOrDefault_of_some hk2]; omega
    · intro pats hp
      exact hpats pats hp

/-- On a mutation-free early return, `removeOutputPort` hands back the
inputs unchanged. -/
theorem removeOutputPort_reject_shape (node : Node) (conns : List ConnData) (pn : Nat)
    (h : node.type ≠ "router" ∨ portsOrDefault node.config.outputPorts ≤ 2 ∨
         portsOrDefault node.config.outputPorts ≤ pn) :
    removeOutputPort node conns pn = (false, node, conns) := by
  unfold removeOutputPort
  by_cases ht : node.type ≠ "router"
  · rw [if_pos ht]
  · rw [if_neg ht]
    by_cases h2 : portsOrDefault node.config.outputPorts ≤ 2
    · simp only [if_pos h2]
    · by_cases h3 : portsOrDefault node.config.outputPorts ≤ pn
      · simp only [if_neg h2, if_pos h3]
      · rcases h with h | h | h
        · exact absurd h ht
        · exact absurd h h2
        · exact absurd h h3

/-- The successful branch of `removeOutputPort` when the node carries no
keyword pattern list. -/
theorem removeOutputPort_none_shape (node : Node) (conns : List ConnData) (pn : Nat)
    (ht : ¬ node.type ≠ "router") (h2 : ¬ portsOrDefault node.config.outputPorts ≤ 2)
    (h3 : ¬ portsOrDefault node.config.outputPorts ≤ pn)
    (hkw : node.config.keywordPatterns = none) :
    removeOutputPort node conns pn =
      (true,
       { node with config := { node.config with
           outputPorts := some (portsOrDefault node.config.outputPorts - 1) } },
       removeOutputPortCleanup node.id pn conns) := by
  simp only [removeOutputPort, if_neg ht, if_neg h2, if_neg h3, hkw]

/-- The successful branch of `removeOutputPort` on a keyword-router. -/
theorem removeOutputPort_some_shape (node : Node) (conns : List ConnData) (pn : Nat)
    (pats : List KeywordPattern)
    (ht : ¬ node.type ≠ "router") (h2 : ¬ portsOrDefault node.config.outputPorts ≤ 2)
    (h3 : ¬ portsOrDefault node.config.outputPorts ≤ pn)
    (hkw : node.config.keywordPatterns = some pats) :
    removeOutputPort node conns pn =
      (true,
       { node with config := { node.config with
           outputPorts := some (portsOrDefault node.config.outputPorts - 1),
           keywordPatterns := some ((removeFirstWithPort pats pn).map (fun p =>
             if pn < p.port then { p with port := p.port - 1 } else p)) } },
       removeOutputPortCleanup node.id pn conns) := by
  simp only [removeOutputPort, if_neg ht, if_neg h2, if_neg h3, hkw]

theorem removeOutputPort_inv {node : Node} (conns : List ConnData) (pn : Nat)
    (h : RouterInv node) : RouterInv (removeOutputPort node conns pn).2.1 := by
  obtain ⟨⟨k, hk, hk2⟩, hpats⟩ := h
  by_cases ht : node.type ≠ "router"
  · rw [removeOutputPort_reject_shape node conns pn (Or.inl ht)]
    exact ⟨⟨k, hk, hk2⟩, hpats⟩
  · by_cases h2 : portsOrDefault node.config.outputPorts ≤ 2
    · rw [removeOutputPort_reject_shape node conns pn (Or.inr (Or.inl h2))]
      exact ⟨⟨k, hk, hk2⟩, hpats⟩
    · by_cases h3 : portsOrDefault node.config.outputPorts ≤ pn
      · rw [removeOutputPort_reject_shape node conns pn (Or.inr (Or.inr h3))]
        exact ⟨⟨k, hk, hk2⟩, hpats⟩
      · have hdef : portsOrDefault node.config.outputPorts = k := by
          rw [hk]; exact portsOrDefault_of_some hk2
        cases hkw : node.config.keywordPatterns with
        | none =>
            rw [removeOutputPort_none_shape node conns pn ht h2 h3 hkw]
            refine ⟨⟨k - 1, by simp [hdef], by omega⟩, ?_⟩
            intro pats hp
            simp only [hkw] at hp
            cases hp
        | some pats =>
            rw [removeOutputPort_some_shape node conns pn pats ht h2 h3 hkw]
            refine ⟨⟨k - 1, by simp [hdef], by omega⟩, ?_⟩
            intro pats' hp'
            have hchar := hpats pats hkw
            have hd := removeFirst_dec_ports pats pn 0 (Nat.zero_le pn)
              (by rw [hchar, List.range_eq_range'])
            rw [← List.range_eq_range'] at hd
            simp only [Option.some.injEq] at hp'
            rw [← hp']
            simpa using hd

theorem ensurePatterns_inv {node : Node} (h : RouterInv node) :
    RouterInv (ensurePatternsMatchOutputPorts node) ∧
    (node.type = "router" →
      ∃ pats k, (ensurePatternsMatchOutputPorts node).config.keywordPatterns = some pats ∧
        (ensurePatternsMatchOutputPorts node).config.outputPorts = some k ∧
        pats.length = k) := by
  obtain ⟨⟨k, hk, hk2⟩, hpats⟩ := h
  by_cases ht : node.type ≠ "router"
  · refine ⟨?_, fun hr => absurd hr ht⟩
    simp only [ensurePatternsMatchOutputPorts, if_pos ht]
    exact ⟨⟨k, hk, hk2⟩, hpats⟩
  · have hdef : max 2 (portsOrDefault node.config.outputPorts) = k := by
      rw [hk]; unfold portsOrDefault
      rcases Nat.eq_zero_or_pos k with h0 | h0
      · omega
      · simp only [if_neg (by omega : ¬ k = 0)]; omega
    have hgetchar : portsOf (node.config.keywordPatterns.getD []) =
        List.range (node.config.keywordPatterns.getD []).length := by
      cases hkw : node.config.keywordPatterns with
      | none => rfl
      | some pats => exact hpats pats hkw
    by_cases hlen : (node.config.keywordPatterns.getD []).length ≠
        max 2 (portsOrDefault node.config.outputPorts)
    · simp only [ensurePatternsMatchOutputPorts, if_neg ht, if_pos hlen]
      set pats := node.config.keywordPatterns.getD [] with hpatsdef
      set tgt := max 2 (portsOrDefault node.config.outputPorts) with htgt
      by_cases hless : pats.length < tgt
      · have hports : portsOf (pats ++ (List.range' pats.length (tgt - pats.length)).map placeholderRule)
            = List.range tgt := by
          rw [portsOf, List.map_append, ← portsOf, ← portsOf, hgetchar,
            placeholder_ports, List.range_eq_range', List.range_eq_range']
          have := List.range'_append 0 pats.length (tgt - pats.length) 1
          simp only [Nat.one_mul, Nat.zero_add] at this
          rw [this]
          congr 1
          omega
        have hlen' : (pats ++ (List.range' pats.length (tgt - pats.length)).map placeholderRule).length = tgt := by
          simp
          omega
        simp only [if_pos hless]
        constructor
        · refine ⟨⟨tgt, rfl, by omega⟩, ?_⟩
          intro pats' hp'
          simp only [Option.some.injEq] at hp'
          rw [← hp', hlen', hports]
        · intro _
          exact ⟨_, tgt, rfl, rfl, hlen'⟩
      · have hports : portsOf (pats.take tgt) = List.range tgt := by
          have : portsOf (pats.take tgt) = (portsOf pats).take tgt := by
            simp [portsOf, List.map_take]
          rw [this, hgetchar, List.take_range]
          congr 1
          omega
        have hlen' : (pats.take tgt).length = tgt := by
          simp
          omega
        simp only [if_neg hless]
        constructor
        · refine ⟨⟨tgt, rfl, by omega⟩, ?_⟩
          intro pats' hp'
          simp only [Option.some.injEq] at hp'
          rw [← hp', hlen', hports]
        · intro _
          exact ⟨_, tgt, rfl, rfl, hlen'⟩
    · simp only [ensurePatternsMatchOutputPorts, if_neg ht, if_neg hlen]
      push_neg at hlen
      constructor
      · refine ⟨⟨k, hk, hk2⟩, ?_⟩
        intro pats' hp'
        simp only [Option.some.injEq] at hp'
        rw [← hp']
        exact hgetchar
      · intro _
        refine ⟨_, k, rfl, hk, ?_⟩
        rw [hlen, hdef]

theorem removeOutputPort_type (node : Node) (conns : List ConnData) (pn : Nat) :
    (removeOutputPort node conns pn).2.1.type = node.type := by
  by_cases ht : node.type ≠ "router"
  · rw [removeOutputPort_reject_shape node conns pn (Or.inl ht)]
  · by_cases h2 : portsOrDefault node.config.outputPorts ≤ 2
    · rw [removeOutputPort_reject_shape node conns pn (Or.inr (Or.inl h2))]
    · by_cases h3 : portsOrDefault node.config.outputPorts ≤ pn
      · rw [removeOutputPort_reject_shape node conns pn (Or.inr (Or.inr h3))]
      · cases hkw : node.config.keywordPatterns with
        | none => rw [removeOutputPort_none_shape node conns pn ht h2 h3 hkw]
        | some pats => rw [removeOutputPort_some_shape node conns pn pats ht h2 h3 hkw]

theorem applyRouterOp_type (st : Node × List ConnData) (op : RouterOp) :
    (applyRouterOp st op).1.type = st.1.type := by
  cases op with
  | addPort =>
      simp only [applyRouterOp, addNewOutputPort]
      split <;> rfl
  | removePort n => exact removeOutputPort_type st.1 st.2 n
  | reconcile =>
      simp only [applyRouterOp]
      by_cases ht : st.1.type ≠ "router"
      · simp only [ensurePatternsMatchOutputPorts, if_pos ht]
      · simp only [ensurePatternsMatchOutputPorts, if_neg ht]
        split <;> rfl

theorem applyRouterOp_inv (st : Node × List ConnData) (op : RouterOp)
    (h : RouterInv st.1) : RouterInv (applyRouterOp st op).1 := by
  cases op with
  | addPort => exact addNewOutputPort_inv h
  | removePort n => exact removeOutputPort_inv st.2 n h
  | reconcile => exact (ensurePatterns_inv h).1

theorem applyRouterOps_inv :
    ∀ (ops : List RouterOp) (st : Node × List ConnData), RouterInv st.1 →
      RouterInv (applyRouterOps ops st).1 ∧
      (applyRouterOps ops st).1.type = st.1.type := by
  intro ops
  induction ops with
  | nil => intro st h; exact ⟨h, rfl⟩
  | cons op rest ih =>
      intro st h
      have h1 := applyRouterOp_inv st op h
      have h2 := applyRouterOp_type st op
      obtain ⟨h3, h4⟩ := ih (applyRouterOp st op) h1
      exact ⟨h3, h4.trans h2⟩

/-- C3 (amended).  Starting from any router state satisfying the code's
invariant (`outputPorts ≥ 2` and rule `i` targeting port `i` — the
default router qualifies), every sequence of
`addNewOutputPort`/`removeOutputPort`/`ensurePatternsMatchOutputPorts`
calls preserves it, and the rule-list length equals `outputPorts`
immediately after a reconcile call.  (`addNewOutputPort` itself appends
no rule; see the counterexample.) -/
theorem routerOps_invariant (ops : List RouterOp) (node : Node)
    (conns : List ConnData) (hinv : RouterInv node) (hr : node.type = "router") :
    (∃ k, (applyRouterOps ops (node, conns)).1.config.outputPorts = some k ∧ 2 ≤ k) ∧
    (∀ pats, (applyRouterOps ops (node, conns)).1.config.keywordPatterns = some pats →
      ∀ i (hi : i < pats.length), (pats.get ⟨i, hi⟩).port = i) ∧
    (∃ pats k,
      (applyRouterOps (ops ++ [RouterOp.reconcile]) (node, conns)).1.config.keywordPatterns
          = some pats ∧
      (applyRouterOps (ops ++ [RouterOp.reconcile]) (node, conns)).1.config.outputPorts
          = some k ∧
      pats.length = k) := by
  obtain ⟨hfin, htype⟩ := applyRouterOps_inv ops (node, conns) hinv
  refine ⟨hfin.1, ?_, ?_⟩
  · intro pats hp i hi
    have hchar := hfin.2 pats hp
    have hi2 : i < (pats.map KeywordPattern.port).length := by simpa using hi
    have hg := List.get_of_eq hchar ⟨i, hi2⟩
    simpa [portsOf, List.getElem_map, List.getElem_range] using hg
  · have happ : applyRouterOps (ops ++ [RouterOp.reconcile]) (node, conns)
        = applyRouterOp (applyRouterOps ops (node, conns)) RouterOp.reconcile := by
      unfold applyRouterOps
      rw [List.foldl_append]
      rfl
    rw [happ]
    exact (ensurePatterns_inv hfin).2 (htype.trans hr)

/-- The default router satisfies the invariant. -/
theorem defaultRouter_inv : RouterInv defaultRouterNode := by
  constructor
  · exact ⟨2, rfl, by omega⟩
  · intro pats hp
    simp only [defaultRouterNode, defaultRouterConfig, Option.some.injEq] at hp
    rw [← hp]
    rfl

/-- Witness for C3's amended theorem at the default router with one
add/remove/reconcile round trip. -/
theorem routerOps_invariant_witness :
    RouterInv defaultRouterNode ∧ defaultRouterNode.type = "router" ∧
    ((∃ k, (applyRouterOps [RouterOp.addPort, RouterOp.reconcile, RouterOp.removePort 1]
        (defaultRouterNode, [])).1.config.outputPorts = some k ∧ 2 ≤ k) ∧
     (∀ pats, (applyRouterOps [RouterOp.addPort, RouterOp.reconcile, RouterOp.removePort 1]
        (defaultRouterNode, [])).1.config.keywordPatterns = some pats →
        ∀ i (hi : i < pats.length), (pats.get ⟨i, hi⟩).port = i) ∧
     (∃ pats k,
        (applyRouterOps ([RouterOp.addPort, RouterOp.reconcile, RouterOp.removePort 1]
            ++ [RouterOp.reconcile]) (defaultRouterNode, [])).1.config.keywordPatterns
          = some pats ∧
        (applyRouterOps ([RouterOp.addPort, RouterOp.reconcile, RouterOp.removePort 1]
            ++ [RouterOp.reconcile]) (defaultRouterNode, [])).1.config.outputPorts
          = some k ∧
        pats.length = k)) :=
  ⟨defaultRouter_inv, rfl,
   routerOps_invariant [RouterOp.addPort, RouterOp.reconcile, RouterOp.removePort 1]
     defaultRouterNode [] defaultRouter_inv rfl⟩

/-- Counterexample to C3 as stated: `addNewOutputPort` on the freshly
created default router increments `outputPorts` to 3 but appends no
keyword rule — the rule list still has 2 entries, so the claimed equality
`rule list length = outputPorts` fails right after the call. -/
theorem addNewOutputPort_no_rule_appended :
    (addNewOutputPort defaultRouterNode).1.config.outputPorts = some 3 ∧
    ((addNewOutputPort defaultRouterNode).1.config.keywordPatterns.getD []).length = 2 := by
  constructor <;> rfl

/-! ## C2: `validateNetwork` accumulates all checks without short-circuiting

The per-check error lists below restate each check independently (with
existential/universal formulations rather than the fold-and-filter code),
so that the decomposition theorem shows every check contributes its
errors regardless of the other checks' outcomes. -/

def inputPresenceErrors (nodes : List Node) : List String :=
  if nodes.any (fun n => n.type = "input") then []
  else ["Please add an input node to your network"]

def outputPresenceErrors (nodes : List Node) : List String :=
  if nodes.any (fun n => n.type = "output") then []
  else ["Please add an output node to your network"]

def connectionPresenceErrors (connections : List ConnData) : List String :=
  if connections.isEmpty then ["Please connect nodes in your network"] else []

def agentLoopErrors (nodes : List Node) : List String :=
  nodes.flatMap agentNodeErrors

def isolatedLoopErrors (nodes : List Node) (connections : List ConnData) : List String :=
  nodes.flatMap (fun n =>
    if n.id ∈ connectedNodeIds connections then []
    else ["Node " ++ isolatedDisplayName n ++ " is not connected to any other node"])

def inputIncidenceErrors (nodes : List Node) (connections : List ConnData) : List String :=
  if (∃ n ∈ nodes, n.type = "input") ∧
      ¬ (∃ n ∈ nodes, n.type = "input" ∧ n.id ∈ connectedNodeIds connections) then
    ["Input node is not connected to the network"]
  else []

def outputIncidenceErrors (nodes : List Node) (connections : List ConnData) : List String :=
  if (∃ n ∈ nodes, n.type = "output") ∧
      ¬ (∃ n ∈ nodes, n.type = "output" ∧ n.id ∈ connectedNodeIds connections) then
    ["Output node is not connected to the network"]
  else []

/-- The spec-level meaning of one agent node passing the configuration
check of `validateNetwork`. -/
def AgentConfigComplete (n : Node) : Prop :=
  blankOpt n.config.name = false ∧
  (n.subType = some "openai" →
    blankOpt n.config.apiKey = false ∧ truthy n.config.model = true) ∧
  (n.subType = some "ollama" →
    blankOpt n.config.apiUrl = false ∧ blankOpt n.config.apiKey = false ∧
    truthy n.config.model = true) ∧
  (n.subType = some "anthropic" →
    blankOpt n.config.apiKey = false ∧ truthy n.config.model = true) ∧
  (n.subType = some "bedrock" →
    (blankOpt n.config.accessKey = false ∧ blankOpt n.config.secretKey = false) ∧
    truthy n.config.region = true ∧ truthy n.config.model = true) ∧
  (n.subType = some "custom" →
    truthy n.config.port = true ∨ blankOpt n.config.endpoint = false)

/-- The spec-level meaning of `validateNetwork` returning `valid`. -/
def ValidNetworkProp (nodes : List Node) (connections : List ConnData) : Prop :=
  (∃ n ∈ nodes, n.type = "input") ∧
  (∃ n ∈ nodes, n.type = "output") ∧
  connections ≠ [] ∧
  (∀ n ∈ nodes, n.type = "agent" → AgentConfigComplete n) ∧
  (∀ n ∈ nodes, n.id ∈ connectedNodeIds connections) ∧
  ((∃ n ∈ nodes, n.type = "input") →
    ∃ n ∈ nodes, n.type = "input" ∧ n.id ∈ connectedNodeIds connections) ∧
  ((∃ n ∈ nodes, n.type = "output") →
    ∃ n ∈ nodes, n.type = "output" ∧ n.id ∈ connectedNodeIds connections)

theorem filter_length_zero_iff_not_any {α : Type} (l : List α) (p : α → Bool) :
    ((l.filter p).length = 0) ↔ ¬ l.any p = true := by
  rw [List.length_eq_zero, List.filter_eq_nil_iff]
  simp [List.any_eq_true]

theorem foldl_append_flatMap {α β : Type} (f : α → List β) :
    ∀ (l : List α) (init : List β),
      List.foldl (fun acc n => acc ++ f n) init l = init ++ l.flatMap f := by
  intro l
  induction l with
  | nil => intro init; simp
  | cons a t ih => intro init; simp [ih]

theorem agentNodeErrors_eq_nil (n : Node) :
    agentNodeErrors n = [] ↔ (n.type = "agent" → AgentConfigComplete n) := by
  unfold agentNodeErrors AgentConfigComplete
  by_cases ht : n.type = "agent"
  · simp only [if_pos ht, ht, forall_const]
    by_cases h1 : n.subType = some "openai"
    · simp [h1]
    · by_cases h2 : n.subType = some "ollama"
      · simp [h1, h2]
      · by_cases h3 : n.subType = some "anthropic"
        · simp [h1, h2, h3]
        · by_cases h4 : n.subType = some "bedrock"
          · simp [h1, h2, h3, h4]
          · by_cases h5 : n.subType = some "custom"
            · cases hb : truthy n.config.port with
              | false => simp [h1, h2, h3, h4, h5, hb]
              | true => simp [h1, h2, h3, h4, h5, hb]
            · simp [h1, h2, h3, h4, h5]
  · simp [if_neg ht, ht]

/-- C2.  `validateNetwork` evaluates all seven checks with no
short-circuiting — its error list is exactly the concatenation of every
check's errors — and the reported `valid` flag is true iff zero errors
accumulated, which happens iff the store satisfies the conjunction of
all the checks' success conditions. -/
theorem validateNetwork_accumulates (nodes : List Node) (connections : List ConnData) :
    (validateNetwork nodes connections).errors =
      inputPresenceErrors nodes ++ outputPresenceErrors nodes ++
      connectionPresenceErrors connections ++ agentLoopErrors nodes ++
      isolatedLoopErrors nodes connections ++
      inputIncidenceErrors nodes connections ++
      outputIncidenceErrors nodes connections ∧
    ((validateNetwork nodes connections).valid = true ↔
      (validateNetwork nodes connections).errors = []) ∧
    ((validateNetwork nodes connections).valid = true ↔
      ValidNetworkProp nodes connections) := by
  have herr : (validateNetwork nodes connections).errors =
      inputPresenceErrors nodes ++ outputPresenceErrors nodes ++
      connectionPresenceErrors connections ++ agentLoopErrors nodes ++
      isolatedLoopErrors nodes connections ++
      inputIncidenceErrors nodes connections ++
      outputIncidenceErrors nodes connections := by
    simp only [validateNetwork]
    rw [foldl_append_flatMap, foldl_append_flatMap]
    have h_in : (if (nodes.filter (fun node => node.type = "input")).length = 0
        then ["Please add an input node to your network"] else [])
        = inputPresenceErrors nodes := by
      unfold inputPresenceErrors
      by_cases h : nodes.any (fun n => n.type = "input")
      · rw [if_pos h, if_neg (by rw [filter_length_zero_iff_not_any]; exact not_not.mpr h)]
      · rw [if_neg h, if_pos (by rw [filter_length_zero_iff_not_any]; exact h)]
    have h_out : (if (nodes.filter (fun node => node.type = "output")).length = 0
        then ["Please add an output node to your network"] else [])
        = outputPresenceErrors nodes := by
      unfold outputPresenceErrors
      by_cases h : nodes.any (fun n => n.type = "output")
      · rw [if_pos h, if_neg (by rw [filter_length_zero_iff_not_any]; exact not_not.mpr h)]
      · rw [if_neg h, if_pos (by rw [filter_length_zero_iff_not_any]; exact h)]
    have h_conn : (if connections.length = 0 then ["Please connect nodes in your network"] else [])
        = connectionPresenceErrors connections := by
      unfold connectionPresenceErrors
      simp [List.isEmpty_iff, List.length_eq_zero]
    have h_iso : (fun n => if n.id ∉ connectedNodeIds connections then
        ["Node " ++ isolatedDisplayName n ++ " is not connected to any other node"] else [])
        = (fun n => if n.id ∈ connectedNodeIds connections then []
            else ["Node " ++ isolatedDisplayName n ++ " is not connected to any other node"]) := by
      funext n
      by_cases h : n.id ∈ connectedNodeIds connections <;> simp [h]
    have h_inc : (if ¬ ((nodes.filter (fun node => node.type = "input")).map Node.id).any
          (fun id => id ∈ connectedNodeIds connections) ∧
          0 < ((nodes.filter (fun node => node.type = "input")).map Node.id).length
        then ["Input node is not connected to the network"] else [])
        = inputIncidenceErrors nodes connections := by
      unfold inputIncidenceErrors
      refine if_congr ?_ rfl rfl
      rw [and_comm]
      apply and_congr
      · constructor
        · intro hpos
          rw [List.length_map, Nat.pos_iff_ne_zero] at hpos
          rcases List.exists_mem_of_ne_nil
            (nodes.filter (fun node => node.type = "input"))
            (fun hnil => hpos (by rw [hnil]; rfl)) with ⟨n, hn⟩
          obtain ⟨hmem, htp⟩ := List.mem_filter.mp hn
          exact ⟨n, hmem, by simpa using htp⟩
        · intro ⟨n, hn, htp⟩
          rw [List.length_map]
          have hmem : n ∈ nodes.filter (fun node => node.type = "input") :=
            List.mem_filter.mpr ⟨hn, by simpa using htp⟩
          exact List.length_pos.mpr (List.ne_nil_of_mem hmem)
      · rw [not_iff_not, List.any_eq_true]
        constructor
        · intro ⟨id, hid, hmem⟩
          rcases List.mem_map.mp hid with ⟨n, hn, rfl⟩
          obtain ⟨hmem2, htp⟩ := List.mem_filter.mp hn
          exact ⟨n, hmem2, by simpa using htp, by simpa using hmem⟩
        · intro ⟨n, hn, htp, hmem⟩
          exact ⟨n.id, List.mem_map.mpr
            ⟨n, List.mem_filter.mpr ⟨hn, by simpa using htp⟩, rfl⟩, by simpa using hmem⟩
    have h_outc : (if ¬ ((nodes.filter (fun node => node.type = "output")).map Node.id).any
          (fun id => id ∈ connectedNodeIds connections) ∧
          0 < ((nodes.filter (fun node => node.type = "output")).map Node.id).length
        then ["Output node is not connected to the network"] else [])
        = outputIncidenceErrors nodes connections := by
      unfold outputIncidenceErrors
      refine if_congr ?_ rfl rfl
      rw [and_comm]
      apply and_congr
      · constructor
        · intro hpos
          rw [List.length_map, Nat.pos_iff_ne_zero] at hpos
          rcases List.exists_mem_of_ne_nil
            (nodes.filter (fun node => node.type = "output"))
            (fun hnil => hpos (by rw [hnil]; rfl)) with ⟨n, hn⟩
          obtain ⟨hmem, htp⟩ := List.mem_filter.mp hn
          exact ⟨n, hmem, by simpa using htp⟩
        · intro ⟨n, hn, htp⟩
          rw [List.length_map]
          have hmem : n ∈ nodes.filter (fun node => node.type = "output") :=
            List.mem_filter.mpr ⟨hn, by simpa using htp⟩
          exact List.length_pos.mpr (List.ne_nil_of_mem hmem)
      · rw [not_iff_not, List.any_eq_true]
        constructor
        · intro ⟨id, hid, hmem⟩
          rcases List.mem_map.mp hid with ⟨n, hn, rfl⟩
          obtain ⟨hmem2, htp⟩ := List.mem_filter.mp hn
          exact ⟨n, hmem2, by simpa using htp, by simpa using hmem⟩
        · intro ⟨n, hn, htp, hmem⟩
          exact ⟨n.id, List.mem_map.mpr
            ⟨n, List.mem_filter.mpr ⟨hn, by simpa using htp⟩, rfl⟩, by simpa using hmem⟩
    rw [h_iso, h_inc, h_outc, h_in, h_out, h_conn]
    simp [agentLoopErrors, isolatedLoopErrors, List.append_assoc]
  have hvalid_def : (validateNetwork nodes connections).valid
      = decide ((validateNetwork nodes connections).errors.length = 0) := rfl
  have hvalid : (validateNetwork nodes connections).valid = true ↔
      (validateNetwork nodes connections).errors = [] := by
    rw [hvalid_def]
    simp [List.length_eq_zero]
  refine ⟨herr, hvalid, ?_⟩
  · rw [hvalid, herr]
    simp only [List.append_eq_nil]
    unfold ValidNetworkProp
    have e1 : inputPresenceErrors nodes = [] ↔ (∃ n ∈ nodes, n.type = "input") := by
      unfold inputPresenceErrors
      split
      case isTrue h => simpa using h
      case isFalse h => simpa using h
    have e2 : outputPresenceErrors nodes = [] ↔ (∃ n ∈ nodes, n.type = "output") := by
      unfold outputPresenceErrors
      split
      case isTrue h => simpa using h
      case isFalse h => simpa using h
    have e3 : connectionPresenceErrors connections = [] ↔ connections ≠ [] := by
      unfold connectionPresenceErrors
      split
      case isTrue h => simpa using h
      case isFalse h => simpa using h
    have e4 : agentLoopErrors nodes = [] ↔
        (∀ n ∈ nodes, n.type = "agent" → AgentConfigComplete n) := by
      unfold agentLoopErrors
      rw [List.flatMap_eq_nil_iff]
      constructor
      · intro h n hn; exact (agentNodeErrors_eq_nil n).mp (h n hn)
      · intro h n hn; exact (agentNodeErrors_eq_nil n).mpr (h n hn)
    have e5 : isolatedLoopErrors nodes connections = [] ↔
        (∀ n ∈ nodes, n.id ∈ connectedNodeIds connections) := by
      unfold isolatedLoopErrors
      rw [List.flatMap_eq_nil_iff]
      constructor
      · intro h n hn
        have := h n hn
        by_contra hmem
        rw [if_neg hmem] at this
        simp at this
      · intro h n hn
        rw [if_pos (h n hn)]
    have e6 : inputIncidenceErrors nodes connections = [] ↔
        ((∃ n ∈ nodes, n.type = "input") →
          ∃ n ∈ nodes, n.type = "input" ∧ n.id ∈ connectedNodeIds connections) := by
      unfold inputIncidenceErrors
      split
      case isTrue h =>
        constructor
        · intro habs; exact absurd habs (by simp)
        · intro himp; exact (h.2 (himp h.1)).elim
      case isFalse h =>
        push_neg at h
        constructor
        · intro _; exact h
        · intro _; rfl
    have e7 : outputIncidenceErrors nodes connections = [] ↔
        ((∃ n ∈ nodes, n.type = "output") →
          ∃ n ∈ nodes, n.type = "output" ∧ n.id ∈ connectedNodeIds connections) := by
      unfold outputIncidenceErrors
      split
      case isTrue h =>
        constructor
        · intro habs; exact absurd habs (by simp)
        · intro himp; exact (h.2 (himp h.1)).elim
      case isFalse h =>
        push_neg at h
        constructor
        · intro _; exact h
        · intro _; rfl
    rw [e1, e2, e3, e4, e5, e6, e7]
    simp only [and_assoc]

/-! ## C1: `detectMultipleNetworks` returns exactly the qualifying
connected components

The development below characterises the DFS traversal.  `NetReach` is the
spec-level connectivity relation (reflexive-transitive closure of the
undirected adjacency induced by the connections); the main theorem shows
each emitted network's node set is exactly a `NetReach`-component and
that every qualifying component is emitted. -/

theorem connectedNodeIds_mem (x : String) :
    ∀ (cs : List ConnData) (init : List String),
      x ∈ cs.foldl (fun acc conn => acc ++ [conn.start.nodeId, conn.endp.nodeId]) init ↔
        x ∈ init ∨ ∃ c ∈ cs, c.start.nodeId = x ∨ c.endp.nodeId = x := by
  intro cs
  induction cs with
  | nil => intro init; simp
  | cons c rest ih =>
      intro init
      rw [List.foldl_cons, ih]
      simp only [List.exists_mem_cons_iff]
      have hstep : x ∈ init ++ [c.start.nodeId, c.endp.nodeId] ↔
          x ∈ init ∨ (c.start.nodeId = x ∨ c.endp.nodeId = x) := by
        constructor
        · intro h
          rcases List.mem_append.mp h with h | h
          · exact Or.inl h
          · rcases List.mem_cons.mp h with h | h
            · exact Or.inr (Or.inl h.symm)
            · exact Or.inr (Or.inr (List.mem_singleton.mp h).symm)
        · rintro (h | h | h)
          · exact List.mem_append_left _ h
          · exact List.mem_append_right _ (by simp [h.symm])
          · exact List.mem_append_right _ (by simp [h.symm])
      rw [hstep]
      exact or_assoc

theorem connectedNodeIds_spec (cs : List ConnData) (x : String) :
    x ∈ connectedNodeIds cs ↔ ∃ c ∈ cs, c.start.nodeId = x ∨ c.endp.nodeId = x := by
  unfold connectedNodeIds
  rw [connectedNodeIds_mem]
  simp

/-- Membership in one step of the adjacency-list construction. -/
theorem mem_adjStep (x y : String) (c : ConnData) (acc : List String) :
    y ∈ (if c.endp.nodeId = x
          then (if c.start.nodeId = x then acc ++ [c.endp.nodeId] else acc) ++ [c.start.nodeId]
          else (if c.start.nodeId = x then acc ++ [c.endp.nodeId] else acc)) ↔
      y ∈ acc ∨ (c.start.nodeId = x ∧ c.endp.nodeId = y) ∨
        (c.endp.nodeId = x ∧ c.start.nodeId = y) := by
  by_cases h1 : c.start.nodeId = x <;> by_cases h2 : c.endp.nodeId = x <;>
    simp [h1, h2, eq_comm]

theorem adjacency_foldl_mem (x y : String) :
    ∀ (cs : List ConnData) (init : List String),
      y ∈ cs.foldl (fun acc conn =>
          let acc := if conn.start.nodeId = x then acc ++ [conn.endp.nodeId] else acc
          if conn.endp.nodeId = x then acc ++ [conn.start.nodeId] else acc) init ↔
        y ∈ init ∨ ∃ c ∈ cs,
          (c.start.nodeId = x ∧ c.endp.nodeId = y) ∨
          (c.endp.nodeId = x ∧ c.start.nodeId = y) := by
  intro cs
  induction cs with
  | nil => intro init; simp
  | cons c rest ih =>
      intro init
      rw [List.foldl_cons, ih]
      have hstep := mem_adjStep x y c init
      simp only [List.exists_mem_cons_iff]
      constructor
      · rintro (h | h)
        · rcases hstep.mp h with h' | h' | h'
          · exact Or.inl h'
          · exact Or.inr (Or.inl (Or.inl h'))
          · exact Or.inr (Or.inl (Or.inr h'))
        · exact Or.inr (Or.inr h)
      · rintro (h | h | h)
        · exact Or.inl (hstep.mpr (Or.inl h))
        · exact Or.inl (hstep.mpr (Or.inr h))
        · exact Or.inr h

theorem adjacency_spec (cs : List ConnData) (x y : String) :
    y ∈ adjacency cs x ↔ ∃ c ∈ cs,
      (c.start.nodeId = x ∧ c.endp.nodeId = y) ∨
      (c.endp.nodeId = x ∧ c.start.nodeId = y) := by
  unfold adjacency
  rw [adjacency_foldl_mem]
  simp

theorem adjacency_symm (cs : List ConnData) (x y : String)
    (h : y ∈ adjacency cs x) : x ∈ adjacency cs y := by
  rw [adjacency_spec] at h ⊢
  rcases h with ⟨c, hc, ⟨h1, h2⟩ | ⟨h1, h2⟩⟩
  · exact ⟨c, hc, Or.inr ⟨h2, h1⟩⟩
  · exact ⟨c, hc, Or.inl ⟨h2, h1⟩⟩

/-- Spec-level connectivity: `b` lies in `a`'s connected component when
connections are read as undirected edges. -/
def NetReach (cs : List ConnData) (a b : String) : Prop :=
  Relation.ReflTransGen (fun u v => v ∈ adjacency cs u) a b

theorem netReach_symm (cs : List ConnData) {a b : String} (h : NetReach cs a b) :
    NetReach cs b a := by
  induction h with
  | refl => exact Relation.ReflTransGen.refl
  | tail hab hbc ih =>
      exact Relation.ReflTransGen.trans
        (Relation.ReflTransGen.single (adjacency_symm cs _ _ hbc)) ih

theorem netReach_congr (cs : List ConnData) {a b : String} (hab : NetReach cs a b) :
    ∀ x, NetReach cs a x ↔ NetReach cs b x := by
  intro x
  constructor
  · intro h; exact Relation.ReflTransGen.trans (netReach_symm cs hab) h
  · intro h; exact Relation.ReflTransGen.trans hab h

/-! ### DFS traversal lemmas

`dfsNode`/`dfsList` are analysed for an arbitrary adjacency function.
`ReachAvoid adj V` is reachability through edges whose targets avoid `V`
(the visited set at call time); `unvisitedCount` is the fuel measure. -/

theorem dfsNode_zero (adj : String → List String) (n : String) (st : DfsState) :
    dfsNode adj 0 n st = st := by
  rw [dfsNode]

theorem dfsNode_succ (adj : String → List String) (f : Nat) (n : String) (st : DfsState) :
    dfsNode adj (f + 1) n st
      = dfsList adj f (adj n) ⟨n :: st.visited, st.comp ++ [n]⟩ := by
  rw [dfsNode]

theorem dfsList_nil (adj : String → List String) (fuel : Nat) (st : DfsState) :
    dfsList adj fuel [] st = st := by
  rw [dfsList]

theorem dfsList_cons (adj : String → List String) (fuel : Nat) (a : String)
    (rest : List String) (st : DfsState) :
    dfsList adj fuel (a :: rest) st
      = dfsList adj fuel rest (if a ∈ st.visited then st else dfsNode adj fuel a st) := by
  rw [dfsList]

theorem dfsList_zero (adj : String → List String) :
    ∀ (ns : List String) (st : DfsState), dfsList adj 0 ns st = st := by
  intro ns
  induction ns with
  | nil => intro st; rw [dfsList_nil]
  | cons a rest ih =>
      intro st
      rw [dfsList_cons]
      split
      · exact ih st
      · rw [dfsNode_zero]; exact ih st

/-- Each DFS call visits a fresh, duplicate-free batch `δ` of nodes,
prepended (reversed) to the visited list and appended to the component. -/
theorem dfs_delta (adj : String → List String) :
    ∀ fuel : Nat,
      (∀ (n : String) (st : DfsState), n ∉ st.visited →
        ∃ δ : List String, (dfsNode adj fuel n st).visited = δ.reverse ++ st.visited ∧
          (dfsNode adj fuel n st).comp = st.comp ++ δ ∧ δ.Nodup ∧
          ∀ x ∈ δ, x ∉ st.visited) ∧
      (∀ (ns : List String) (st : DfsState),
        ∃ δ : List String, (dfsList adj fuel ns st).visited = δ.reverse ++ st.visited ∧
          (dfsList adj fuel ns st).comp = st.comp ++ δ ∧ δ.Nodup ∧
          ∀ x ∈ δ, x ∉ st.visited) := by
  intro fuel
  induction fuel with
  | zero =>
      constructor
      · intro n st _
        rw [dfsNode_zero]
        exact ⟨[], by simp, by simp, List.nodup_nil, by simp⟩
      · intro ns st
        rw [dfsList_zero]
        exact ⟨[], by simp, by simp, List.nodup_nil, by simp⟩
  | succ f ih =>
      obtain ⟨_, ihl⟩ := ih
      have hnode : ∀ (n : String) (st : DfsState), n ∉ st.visited →
          ∃ δ : List String, (dfsNode adj (f + 1) n st).visited = δ.reverse ++ st.visited ∧
            (dfsNode adj (f + 1) n st).comp = st.comp ++ δ ∧ δ.Nodup ∧
            ∀ x ∈ δ, x ∉ st.visited := by
        intro n st hn
        obtain ⟨δ', h1, h2, h3, h4⟩ := ihl (adj n) ⟨n :: st.visited, st.comp ++ [n]⟩
        refine ⟨n :: δ', ?_, ?_, ?_, ?_⟩
        · rw [dfsNode_succ, h1]
          simp
        · rw [dfsNode_succ, h2]
          simp
        · refine List.Nodup.cons ?_ h3
          intro hmem
          exact h4 n hmem (List.mem_cons_self n st.visited)
        · intro x hx
          rcases List.mem_cons.mp hx with rfl | hx'
          · exact hn
          · intro hv
            exact h4 x hx' (List.mem_cons_of_mem n hv)
      refine ⟨hnode, ?_⟩
      intro ns
      induction ns with
      | nil =>
          intro st
          rw [dfsList_nil]
          exact ⟨[], by simp, by simp, List.nodup_nil, by simp⟩
      | cons a rest ihrest =>
          intro st
          rw [dfsList_cons]
          by_cases ha : a ∈ st.visited
          · rw [if_pos ha]
            exact ihrest st
          · rw [if_neg ha]
            obtain ⟨δ₁, ha1, ha2, ha3, ha4⟩ := hnode a st ha
            obtain ⟨δ₂, hb1, hb2, hb3, hb4⟩ := ihrest (dfsNode adj (f + 1) a st)
            refine ⟨δ₁ ++ δ₂, ?_, ?_, ?_, ?_⟩
            · rw [hb1, ha1, List.reverse_append, List.append_assoc]
            · rw [hb2, ha2, List.append_assoc]
            · rw [List.nodup_append]
              refine ⟨ha3, hb3, ?_⟩
              intro x hx1 hx2
              have hxv : x ∈ (dfsNode adj (f + 1) a st).visited := by
                rw [ha1]
                exact List.mem_append_left _ (List.mem_reverse.mpr hx1)
              exact hb4 x hx2 hxv
            · intro x hx
              rcases List.mem_append.mp hx with hx' | hx'
              · exact ha4 x hx'
              · intro hv
                exact hb4 x hx' (by rw [ha1]; exact List.mem_append_right _ hv)

theorem dfsList_visited_sub (adj : String → List String) (fuel : Nat)
    (ns : List String) (st : DfsState) :
    ∀ x ∈ st.visited, x ∈ (dfsList adj fuel ns st).visited := by
  intro x hx
  obtain ⟨δ, h1, _, _, _⟩ := (dfs_delta adj fuel).2 ns st
  rw [h1]
  exact List.mem_append_right _ hx

theorem dfsNode_visited_sub (adj : String → List String) (fuel : Nat)
    (n : String) (st : DfsState) (hn : n ∉ st.visited) :
    ∀ x ∈ st.visited, x ∈ (dfsNode adj fuel n st).visited := by
  intro x hx
  obtain ⟨δ, h1, _, _, _⟩ := (dfs_delta adj fuel).1 n st hn
  rw [h1]
  exact List.mem_append_right _ hx

theorem dfsNode_visits_self (adj : String → List String) {fuel : Nat}
    (hf : 1 ≤ fuel) (n : String) (st : DfsState) :
    n ∈ (dfsNode adj fuel n st).visited := by
  cases fuel with
  | zero => omega
  | succ f =>
      rw [dfsNode_succ]
      exact dfsList_visited_sub adj f (adj n) _ n (List.mem_cons_self n _)

theorem dfsList_visits (adj : String → List String) {fuel : Nat} (hf : 1 ≤ fuel) :
    ∀ (ns : List String) (st : DfsState) (a : String), a ∈ ns →
      a ∈ (dfsList adj fuel ns st).visited := by
  intro ns
  induction ns with
  | nil => intro st a ha; simp at ha
  | cons b rest ih =>
      intro st a ha
      rw [dfsList_cons]
      rcases List.mem_cons.mp ha with rfl | ha'
      · by_cases hb : a ∈ st.visited
        · rw [if_pos hb]
          exact dfsList_visited_sub adj fuel rest st a hb
        · rw [if_neg hb]
          exact dfsList_visited_sub adj fuel rest _ a
            (dfsNode_visits_self adj hf a st)
      · split <;> exact ih _ a ha'

/-- Fuel measure: how many store node ids are not yet visited. -/
def unvisitedCount (allIds : List String) (st : DfsState) : Nat :=
  (allIds.toFinset \ st.visited.toFinset).card

theorem uc_mono (allIds : List String) {st st' : DfsState}
    (h : ∀ x ∈ st.visited, x ∈ st'.visited) :
    unvisitedCount allIds st' ≤ unvisitedCount allIds st := by
  apply Finset.card_le_card
  apply Finset.sdiff_subset_sdiff (le_refl _)
  intro x hx
  rw [List.mem_toFinset] at hx ⊢
  exact h x hx

theorem uc_cons (allIds : List String) {st : DfsState} {n : String}
    (comp' : List String) (hmem : n ∈ allIds) (hn : n ∉ st.visited) :
    unvisitedCount allIds ⟨n :: st.visited, comp'⟩ < unvisitedCount allIds st := by
  unfold unvisitedCount
  have hins : (⟨n :: st.visited, comp'⟩ : DfsState).visited.toFinset
      = insert n st.visited.toFinset := by
    simp
  rw [hins, Finset.sdiff_insert]
  have hnin : n ∈ allIds.toFinset \ st.visited.toFinset := by
    rw [Finset.mem_sdiff, List.mem_toFinset, List.mem_toFinset]
    exact ⟨hmem, hn⟩
  rw [Finset.card_erase_of_mem hnin]
  have hpos : 0 < (allIds.toFinset \ st.visited.toFinset).card :=
    Finset.card_pos.mpr ⟨n, hnin⟩
  omega

theorem uc_zero (allIds : List String) {st : DfsState}
    (h : unvisitedCount allIds st = 0) : ∀ a ∈ allIds, a ∈ st.visited := by
  intro a ha
  unfold unvisitedCount at h
  rw [Finset.card_eq_zero] at h
  by_contra hv
  have : a ∈ allIds.toFinset \ st.visited.toFinset := by
    rw [Finset.mem_sdiff, List.mem_toFinset, List.mem_toFinset]
    exact ⟨ha, hv⟩
  rw [h] at this
  simp at this

theorem uc_pos (allIds : List String) {st : DfsState} {n : String}
    (hmem : n ∈ allIds) (hn : n ∉ st.visited) :
    1 ≤ unvisitedCount allIds st := by
  apply Finset.card_pos.mpr
  refine ⟨n, ?_⟩
  rw [Finset.mem_sdiff, List.mem_toFinset, List.mem_toFinset]
  exact ⟨hmem, hn⟩

/-- Reachability through edges whose targets avoid `V`. -/
def ReachAvoid (adj : String → List String) (V : List String) (a b : String) : Prop :=
  Relation.ReflTransGen (fun u v => v ∈ adj u ∧ v ∉ V) a b

theorem reachAvoid_mono {adj : String → List String} {V V' : List String}
    (h : ∀ x ∈ V, x ∈ V') {a b : String} (hr : ReachAvoid adj V' a b) :
    ReachAvoid adj V a b :=
  Relation.ReflTransGen.mono (fun _ _ hp => ⟨hp.1, fun hv => hp.2 (h _ hv)⟩) hr

/-- DFS closure: every newly visited node has all its neighbours visited
by the time the call returns (given enough fuel). -/
theorem dfs_closed (adj : String → List String) (allIds : List String)
    (hadj : ∀ x y, y ∈ adj x → x ∈ allIds ∧ y ∈ allIds) :
    ∀ fuel : Nat,
      (∀ (n : String) (st : DfsState), unvisitedCount allIds st ≤ fuel →
        n ∈ allIds → n ∉ st.visited →
        ∀ x, x ∈ (dfsNode adj fuel n st).visited → x ∉ st.visited →
          ∀ y ∈ adj x, y ∈ (dfsNode adj fuel n st).visited) ∧
      (∀ (ns : List String) (st : DfsState), unvisitedCount allIds st ≤ fuel →
        (∀ a ∈ ns, a ∈ allIds) →
        ∀ x, x ∈ (dfsList adj fuel ns st).visited → x ∉ st.visited →
          ∀ y ∈ adj x, y ∈ (dfsList adj fuel ns st).visited) := by
  intro fuel
  induction fuel with
  | zero =>
      constructor
      · intro n st huc hnall hn x _ _ _ _
        exact absurd (le_trans (uc_pos allIds hnall hn) huc) (by omega)
      · intro ns st _ _ x hx hxnew y _
        rw [dfsList_zero] at hx
        exact absurd hx hxnew
  | succ f ih =>
      obtain ⟨_, ihl⟩ := ih
      have hnode : ∀ (n : String) (st : DfsState), unvisitedCount allIds st ≤ f + 1 →
          n ∈ allIds → n ∉ st.visited →
          ∀ x, x ∈ (dfsNode adj (f + 1) n st).visited → x ∉ st.visited →
            ∀ y ∈ adj x, y ∈ (dfsNode adj (f + 1) n st).visited := by
        intro n st huc hnall hn x hx hxnew y hy
        rw [dfsNode_succ] at hx ⊢
        have huc1 : unvisitedCount allIds ⟨n :: st.visited, st.comp ++ [n]⟩ ≤ f := by
          have := uc_cons allIds (st.comp ++ [n]) hnall hn
          omega
        by_cases hxn : x = n
        · subst hxn
          by_cases hf : 1 ≤ f
          · exact dfsList_visits adj hf (adj x) _ y hy
          · have hf0 : f = 0 := by omega
            subst hf0
            rw [dfsList_zero]
            show y ∈ (⟨x :: st.visited, st.comp ++ [x]⟩ : DfsState).visited
            have := uc_zero allIds (by omega : unvisitedCount allIds
              ⟨x :: st.visited, st.comp ++ [x]⟩ = 0) y (hadj x y hy).2
            exact this
        · refine ihl (adj n) ⟨n :: st.visited, st.comp ++ [n]⟩ huc1
            (fun a ha => (hadj n a ha).2) x hx ?_ y hy
          intro hx1
          rcases List.mem_cons.mp hx1 with h | h
          · exact hxn h
          · exact hxnew h
      refine ⟨hnode, ?_⟩
      intro ns
      induction ns with
      | nil =>
          intro st _ _ x hx hxnew y _
          rw [dfsList_nil] at hx
          exact absurd hx hxnew
      | cons a rest ihrest =>
          intro st huc hsub x hx hxnew y hy
          rw [dfsList_cons] at hx ⊢
          by_cases ha : a ∈ st.visited
          · rw [if_pos ha] at hx ⊢
            exact ihrest st huc (fun b hb => hsub b (List.mem_cons_of_mem a hb)) x hx hxnew y hy
          · rw [if_neg ha] at hx ⊢
            have hmono : ∀ z ∈ st.visited, z ∈ (dfsNode adj (f + 1) a st).visited :=
              dfsNode_visited_sub adj (f + 1) a st ha
            have huc' : unvisitedCount allIds (dfsNode adj (f + 1) a st) ≤ f + 1 :=
              le_trans (uc_mono allIds hmono) huc
            by_cases hx' : x ∈ (dfsNode adj (f + 1) a st).visited
            · have hclosed := hnode a st huc (hsub a (List.mem_cons_self a rest)) ha
                x hx' hxnew y hy
              exact dfsList_visited_sub adj (f + 1) rest _ y hclosed
            · exact ihrest (dfsNode adj (f + 1) a st) huc'
                (fun b hb => hsub b (List.mem_cons_of_mem a hb)) x hx hx' y hy

/-- DFS soundness: every newly visited node is reachable from the seed
through nodes unvisited at call time. -/
theorem dfs_sound (adj : String → List String) :
    ∀ fuel : Nat,
      (∀ (n : String) (st : DfsState) (x : String),
        x ∈ (dfsNode adj fuel n st).visited →
          x ∈ st.visited ∨ ReachAvoid adj st.visited n x) ∧
      (∀ (ns : List String) (st : DfsState) (x : String),
        x ∈ (dfsList adj fuel ns st).visited →
          x ∈ st.visited ∨ ∃ s ∈ ns, s ∉ st.visited ∧ ReachAvoid adj st.visited s x) := by
  intro fuel
  induction fuel with
  | zero =>
      constructor
      · intro n st x hx
        rw [dfsNode_zero] at hx
        exact Or.inl hx
      · intro ns st x hx
        rw [dfsList_zero] at hx
        exact Or.inl hx
  | succ f ih =>
      obtain ⟨_, ihl⟩ := ih
      have hnode : ∀ (n : String) (st : DfsState) (x : String),
          x ∈ (dfsNode adj (f + 1) n st).visited →
            x ∈ st.visited ∨ ReachAvoid adj st.visited n x := by
        intro n st x hx
        rw [dfsNode_succ] at hx
        rcases ihl (adj n) ⟨n :: st.visited, st.comp ++ [n]⟩ x hx with h | ⟨s, hs, hsnv, hra⟩
        · rcases List.mem_cons.mp h with rfl | h'
          · exact Or.inr Relation.ReflTransGen.refl
          · exact Or.inl h'
        · have hsnv' : s ∉ st.visited := fun hv => hsnv (List.mem_cons_of_mem n hv)
          have hra' : ReachAvoid adj st.visited s x :=
            reachAvoid_mono (fun z hz => List.mem_cons_of_mem n hz) hra
          exact Or.inr (Relation.ReflTransGen.head ⟨hs, hsnv'⟩ hra')
      refine ⟨hnode, ?_⟩
      intro ns
      induction ns with
      | nil =>
          intro st x hx
          rw [dfsList_nil] at hx
          exact Or.inl hx
      | cons a rest ihrest =>
          intro st x hx
          rw [dfsList_cons] at hx
          by_cases ha : a ∈ st.visited
          · rw [if_pos ha] at hx
            rcases ihrest st x hx with h | ⟨s, hs, hsnv, hra⟩
            · exact Or.inl h
            · exact Or.inr ⟨s, List.mem_cons_of_mem a hs, hsnv, hra⟩
          · rw [if_neg ha] at hx
            have hmono : ∀ z ∈ st.visited, z ∈ (dfsNode adj (f + 1) a st).visited :=
              dfsNode_visited_sub adj (f + 1) a st ha
            rcases ihrest (dfsNode adj (f + 1) a st) x hx with h | ⟨s, hs, hsnv, hra⟩
            · rcases hnode a st x h with h' | h'
              · exact Or.inl h'
              · exact Or.inr ⟨a, List.mem_cons_self a rest, ha, h'⟩
            · exact Or.inr ⟨s, List.mem_cons_of_mem a hs,
                fun hv => hsnv (hmono s hv), reachAvoid_mono hmono hra⟩

/-- DFS completeness: everything reachable from the seed (avoiding the
initially visited set) gets visited, given enough fuel. -/
theorem dfs_complete (adj : String → List String) (allIds : List String)
    (hadj : ∀ x y, y ∈ adj x → x ∈ allIds ∧ y ∈ allIds)
    (fuel : Nat) (n : String) (st : DfsState)
    (huc : unvisitedCount allIds st ≤ fuel) (hnall : n ∈ allIds) (hn : n ∉ st.visited) :
    ∀ x, ReachAvoid adj st.visited n x →
      x ∈ (dfsNode adj fuel n st).visited ∧ x ∉ st.visited := by
  intro x hra
  induction hra with
  | refl =>
      have hf : 1 ≤ fuel := le_trans (uc_pos allIds hnall hn) huc
      exact ⟨dfsNode_visits_self adj hf n st, hn⟩
  | tail hab hbc ih =>
      obtain ⟨hb_vis, hb_new⟩ := ih
      refine ⟨(dfs_closed adj allIds hadj fuel).1 n st huc hnall hn _ hb_vis hb_new _ hbc.1,
        hbc.2⟩

/-- When the visited set is adjacency-closed, avoiding it makes no
difference: reachability from an unvisited seed coincides with plain
reachability. -/
theorem reachAvoid_iff_reach (adj : String → List String) (V : List String)
    (hclosed : ∀ v ∈ V, ∀ y ∈ adj v, y ∈ V)
    (hsym : ∀ x y, y ∈ adj x → x ∈ adj y)
    {n : String} (hn : n ∉ V) (x : String) :
    ReachAvoid adj V n x ↔ Relation.ReflTransGen (fun u v => v ∈ adj u) n x := by
  constructor
  · exact Relation.ReflTransGen.mono (fun _ _ hp => hp.1)
  · intro h
    suffices hS : ReachAvoid adj V n x ∧ x ∉ V from hS.1
    induction h with
    | refl => exact ⟨Relation.ReflTransGen.refl, hn⟩
    | @tail b c hab hbc ih =>
        obtain ⟨hra, hbV⟩ := ih
        have hcV : c ∉ V := by
          intro hcv
          exact hbV (hclosed c hcv b (hsym b c hbc))
        exact ⟨Relation.ReflTransGen.tail hra ⟨hbc, hcV⟩, hcV⟩

/-- The component characterisation of one top-level DFS call: starting
from an unvisited seed over an adjacency-closed visited set, the
collected component is exactly the seed's connected component. -/
theorem dfs_component (adj : String → List String) (allIds : List String)
    (hadj : ∀ x y, y ∈ adj x → x ∈ allIds ∧ y ∈ allIds)
    (hsym : ∀ x y, y ∈ adj x → x ∈ adj y)
    (fuel : Nat) (n : String) (V : List String)
    (huc : unvisitedCount allIds ⟨V, []⟩ ≤ fuel)
    (hclosed : ∀ v ∈ V, ∀ y ∈ adj v, y ∈ V)
    (hnall : n ∈ allIds) (hn : n ∉ V) :
    (∀ x, x ∈ (dfsNode adj fuel n ⟨V, []⟩).comp ↔
        Relation.ReflTransGen (fun u v => v ∈ adj u) n x) ∧
    (dfsNode adj fuel n ⟨V, []⟩).comp.Nodup ∧
    (∀ x, x ∈ (dfsNode adj fuel n ⟨V, []⟩).visited ↔
        x ∈ V ∨ Relation.ReflTransGen (fun u v => v ∈ adj u) n x) ∧
    (∀ v ∈ (dfsNode adj fuel n ⟨V, []⟩).visited,
        ∀ y ∈ adj v, y ∈ (dfsNode adj fuel n ⟨V, []⟩).visited) := by
  obtain ⟨δ, h1, h2, h3, h4⟩ := (dfs_delta adj fuel).1 n ⟨V, []⟩ hn
  simp only [List.nil_append] at h2
  have hcomp_reach : ∀ x, x ∈ (dfsNode adj fuel n ⟨V, []⟩).comp ↔
      Relation.ReflTransGen (fun u v => v ∈ adj u) n x := by
    intro x
    constructor
    · intro hx
      rw [h2] at hx
      have hxv : x ∈ (dfsNode adj fuel n ⟨V, []⟩).visited := by
        rw [h1]
        exact List.mem_append_left _ (List.mem_reverse.mpr hx)
      rcases ((dfs_sound adj fuel).1 n ⟨V, []⟩ x hxv) with h | h
      · exact absurd h (h4 x hx)
      · exact Relation.ReflTransGen.mono (fun _ _ hp => hp.1) h
    · intro hx
      have hra : ReachAvoid adj V n x :=
        (reachAvoid_iff_reach adj V hclosed hsym hn x).mpr hx
      obtain ⟨hvis, hnv⟩ := dfs_complete adj allIds hadj fuel n ⟨V, []⟩ huc hnall hn x hra
      rw [h1] at hvis
      rw [h2]
      rcases List.mem_append.mp hvis with h | h
      · exact List.mem_reverse.mp h
      · exact absurd h hnv
  refine ⟨hcomp_reach, by rw [h2]; exact h3, ?_, ?_⟩
  · intro x
    rw [h1]
    constructor
    · intro hx
      rcases List.mem_append.mp hx with h | h
      · exact Or.inr ((hcomp_reach x).mp (by rw [h2]; exact List.mem_reverse.mp h))
      · exact Or.inl h
    · rintro (h | h)
      · exact List.mem_append_right _ h
      · exact List.mem_append_left _
          (List.mem_reverse.mpr (by rw [← h2] at *; exact (hcomp_reach x).mpr h))
  · intro v hv y hy
    rw [h1] at hv
    rcases List.mem_append.mp hv with h | h
    · have hvnew : v ∉ V := h4 v (List.mem_reverse.mp h)
      exact (dfs_closed adj allIds hadj fuel).1 n ⟨V, []⟩ huc hnall hn v
        (by rw [h1]; exact List.mem_append_left _ h) hvnew y hy
    · rw [h1]
      exact List.mem_append_right _ (hclosed v h y hy)

/-- A connection of the induced subgraph incident to `id`. -/
def IncidentIn (cs : List ConnData) (P : String → Prop) (id : String) : Prop :=
  ∃ c ∈ cs, P c.start.nodeId ∧ P c.endp.nodeId ∧
    (c.start.nodeId = id ∨ c.endp.nodeId = id)

/-- The spec-level success condition of `validateNetworkSubset` applied
to the subgraph of the store induced by the node-id predicate `P`. -/
def ValidSubsetProp (ns : List Node) (cs : List ConnData) (P : String → Prop) : Prop :=
  (∃ m ∈ ns, P m.id ∧ m.type = "input") ∧
  (∃ m ∈ ns, P m.id ∧ m.type = "output") ∧
  (∃ c ∈ cs, P c.start.nodeId ∧ P c.endp.nodeId) ∧
  (∃ m ∈ ns, m.type = "input" ∧ P m.id ∧ IncidentIn cs P m.id) ∧
  (∃ m ∈ ns, m.type = "output" ∧ P m.id ∧ IncidentIn cs P m.id) ∧
  (∀ m ∈ ns, P m.id → IncidentIn cs P m.id) ∧
  (∀ m ∈ ns, P m.id → agentConfigOk m = true)

theorem validateNetworkSubset_eq_true (L : List Node) (K : List ConnData) :
    validateNetworkSubset L K = true ↔
      ((∃ m ∈ L, m.type = "input") ∧ (∃ m ∈ L, m.type = "output") ∧ K ≠ [] ∧
       (∃ m ∈ L, m.type = "input" ∧ m.id ∈ connectedNodeIds K) ∧
       (∃ m ∈ L, m.type = "output" ∧ m.id ∈ connectedNodeIds K) ∧
       (∀ m ∈ L, m.id ∈ connectedNodeIds K) ∧
       (∀ m ∈ L, agentConfigOk m = true)) := by
  have hin : ((L.filter (fun node => node.type = "input")).length = 0) ↔
      ¬ ∃ m ∈ L, m.type = "input" := by
    rw [filter_length_zero_iff_not_any]
    simp
  have hout : ((L.filter (fun node => node.type = "output")).length = 0) ↔
      ¬ ∃ m ∈ L, m.type = "output" := by
    rw [filter_length_zero_iff_not_any]
    simp
  have hinc : ((L.filter (fun node => node.type = "input")).any
        (fun node => node.id ∈ connectedNodeIds K) = true) ↔
      ∃ m ∈ L, m.type = "input" ∧ m.id ∈ connectedNodeIds K := by
    rw [List.any_eq_true]
    constructor
    · intro ⟨m, hm, hc⟩
      obtain ⟨hm2, ht⟩ := List.mem_filter.mp hm
      exact ⟨m, hm2, by simpa using ht, by simpa using hc⟩
    · intro ⟨m, hm, ht, hc⟩
      exact ⟨m, List.mem_filter.mpr ⟨hm, by simpa using ht⟩, by simpa using hc⟩
  have houtc : ((L.filter (fun node => node.type = "output")).any
        (fun node => node.id ∈ connectedNodeIds K) = true) ↔
      ∃ m ∈ L, m.type = "output" ∧ m.id ∈ connectedNodeIds K := by
    rw [List.any_eq_true]
    constructor
    · intro ⟨m, hm, hc⟩
      obtain ⟨hm2, ht⟩ := List.mem_filter.mp hm
      exact ⟨m, hm2, by simpa using ht, by simpa using hc⟩
    · intro ⟨m, hm, ht, hc⟩
      exact ⟨m, List.mem_filter.mpr ⟨hm, by simpa using ht⟩, by simpa using hc⟩
  have hdisc : (L.any (fun node => node.id ∉ connectedNodeIds K) = true) ↔
      ¬ ∀ m ∈ L, m.id ∈ connectedNodeIds K := by
    rw [List.any_eq_true]
    push_neg
    simp
  have hall : (L.all agentConfigOk = true) ↔ ∀ m ∈ L, agentConfigOk m = true :=
    List.all_eq_true
  simp only [validateNetworkSubset]
  split
  case isTrue h1 =>
    simp only [Bool.false_eq_true, false_iff]
    intro ⟨r1, r2, _⟩
    rcases h1 with h | h
    · exact (hin.mp h) r1
    · exact (hout.mp h) r2
  case isFalse h1 =>
    split
    case isTrue h2 =>
      simp only [Bool.false_eq_true, false_iff]
      intro ⟨_, _, r3, _⟩
      exact r3 (List.length_eq_zero.mp h2)
    case isFalse h2 =>
      split
      case isTrue h3 =>
        simp only [Bool.false_eq_true, false_iff]
        intro ⟨_, _, _, r4, r5, _⟩
        rcases h3 with h | h
        · exact h (hinc.mpr r4)
        · exact h (houtc.mpr r5)
      case isFalse h3 =>
        split
        case isTrue h4 =>
          simp only [Bool.false_eq_true, false_iff]
          intro ⟨_, _, _, _, _, r6, _⟩
          exact (hdisc.mp h4) r6
        case isFalse h4 =>
          rw [hall]
          push_neg at h1 h3
          constructor
          · intro r7
            refine ⟨?_, ?_, ?_, ?_, ?_, ?_, r7⟩
            · exact not_not.mp (fun hc => h1.1 (hin.mpr hc))
            · exact not_not.mp (fun hc => h1.2 (hout.mpr hc))
            · intro hk
              exact h2 (by rw [hk]; rfl)
            · exact hinc.mp (by simpa using h3.1)
            · exact houtc.mp (by simpa using h3.2)
            · by_contra hc
              exact h4 (hdisc.mpr hc)
          · intro ⟨_, _, _, _, _, _, r7⟩
            exact r7

theorem validateNetworkSubset_prop (ns : List Node) (cs : List ConnData)
    (P : String → Prop) (L : List Node) (K : List ConnData)
    (hL : ∀ m, m ∈ L ↔ m ∈ ns ∧ P m.id)
    (hK : ∀ c, c ∈ K ↔ c ∈ cs ∧ P c.start.nodeId ∧ P c.endp.nodeId) :
    validateNetworkSubset L K = true ↔ ValidSubsetProp ns cs P := by
  rw [validateNetworkSubset_eq_true]
  have hconn : ∀ id, id ∈ connectedNodeIds K ↔ IncidentIn cs P id := by
    intro id
    rw [connectedNodeIds_spec]
    constructor
    · intro ⟨c, hc, hor⟩
      obtain ⟨hc2, hp1, hp2⟩ := (hK c).mp hc
      exact ⟨c, hc2, hp1, hp2, hor⟩
    · intro ⟨c, hc, hp1, hp2, hor⟩
      exact ⟨c, (hK c).mpr ⟨hc, hp1, hp2⟩, hor⟩
  unfold ValidSubsetProp
  apply and_congr
  · constructor
    · intro ⟨m, hm, ht⟩
      obtain ⟨h1, h2⟩ := (hL m).mp hm
      exact ⟨m, h1, h2, ht⟩
    · intro ⟨m, hm, hp, ht⟩
      exact ⟨m, (hL m).mpr ⟨hm, hp⟩, ht⟩
  apply and_congr
  · constructor
    · intro ⟨m, hm, ht⟩
      obtain ⟨h1, h2⟩ := (hL m).mp hm
      exact ⟨m, h1, h2, ht⟩
    · intro ⟨m, hm, hp, ht⟩
      exact ⟨m, (hL m).mpr ⟨hm, hp⟩, ht⟩
  apply and_congr
  · constructor
    · intro hne
      rcases List.exists_mem_of_ne_nil K hne with ⟨c, hc⟩
      obtain ⟨h1, h2, h3⟩ := (hK c).mp hc
      exact ⟨c, h1, h2, h3⟩
    · intro ⟨c, hc, hp1, hp2⟩
      exact List.ne_nil_of_mem ((hK c).mpr ⟨hc, hp1, hp2⟩)
  apply and_congr
  · constructor
    · intro ⟨m, hm, ht, hcn⟩
      obtain ⟨h1, h2⟩ := (hL m).mp hm
      exact ⟨m, h1, ht, h2, (hconn m.id).mp hcn⟩
    · intro ⟨m, hm, ht, hp, hincid⟩
      exact ⟨m, (hL m).mpr ⟨hm, hp⟩, ht, (hconn m.id).mpr hincid⟩
  apply and_congr
  · constructor
    · intro ⟨m, hm, ht, hcn⟩
      obtain ⟨h1, h2⟩ := (hL m).mp hm
      exact ⟨m, h1, ht, h2, (hconn m.id).mp hcn⟩
    · intro ⟨m, hm, ht, hp, hincid⟩
      exact ⟨m, (hL m).mpr ⟨hm, hp⟩, ht, (hconn m.id).mpr hincid⟩
  apply and_congr
  · constructor
    · intro h m hm hp
      exact (hconn m.id).mp (h m ((hL m).mpr ⟨hm, hp⟩))
    · intro h m hm
      obtain ⟨h1, h2⟩ := (hL m).mp hm
      exact (hconn m.id).mpr (h m h1 h2)
  · constructor
    · intro h m hm hp
      exact h m ((hL m).mpr ⟨hm, hp⟩)
    · intro h m hm
      obtain ⟨h1, h2⟩ := (hL m).mp hm
      exact h m h1 h2

/-! ### From component id lists back to node objects -/

theorem find_id_iff (ns : List Node) (hids : (ns.map Node.id).Nodup)
    (i : String) (m : Node) :
    ns.find? (fun n => n.id = i) = some m ↔ m ∈ ns ∧ m.id = i := by
  constructor
  · intro h
    exact ⟨List.mem_of_find?_eq_some h, by simpa using List.find?_some h⟩
  · intro ⟨hm, hid⟩
    cases hfind : ns.find? (fun n => n.id = i) with
    | none =>
        have := List.find?_eq_none.mp hfind m hm
        simp [hid] at this
    | some m' =>
        have h1 := List.mem_of_find?_eq_some hfind
        have h2 : m'.id = i := by simpa using List.find?_some hfind
        have : m' = m := List.inj_on_of_nodup_map hids h1 hm (by rw [h2, hid])
        rw [this]

theorem objects_map_id (ns : List Node) :
    ∀ (comp : List String), (∀ i ∈ comp, i ∈ ns.map Node.id) →
      (comp.filterMap (fun nodeId => ns.find? (fun n => n.id = nodeId))).map Node.id
        = comp := by
  intro comp
  induction comp with
  | nil => intro _; rfl
  | cons i rest ih =>
      intro hsub
      have hi : i ∈ ns.map Node.id := hsub i (List.mem_cons_self i rest)
      rcases List.mem_map.mp hi with ⟨m, hm, hmid⟩
      have hsome : (ns.find? (fun n => n.id = i)).isSome := by
        rw [List.find?_isSome]
        exact ⟨m, hm, by simp [hmid]⟩
      rcases Option.isSome_iff_exists.mp hsome with ⟨m', hm'⟩
      have hid' : m'.id = i := by simpa using List.find?_some hm'
      simp only [List.filterMap_cons, hm', List.map_cons, hid']
      rw [ih (fun j hj => hsub j (List.mem_cons_of_mem i hj))]

theorem objects_mem (ns : List Node) (hids : (ns.map Node.id).Nodup)
    (comp : List String) (m : Node) :
    m ∈ comp.filterMap (fun nodeId => ns.find? (fun n => n.id = nodeId)) ↔
      m ∈ ns ∧ m.id ∈ comp := by
  rw [List.mem_filterMap]
  constructor
  · intro ⟨i, hi, hfind⟩
    obtain ⟨hm, hid⟩ := (find_id_iff ns hids i m).mp hfind
    exact ⟨hm, by rw [hid]; exact hi⟩
  · intro ⟨hm, hid⟩
    exact ⟨m.id, hid, (find_id_iff ns hids m.id m).mpr ⟨hm, rfl⟩⟩

theorem netReach_mem_ids (ns : List Node) (cs : List ConnData)
    (hcs : ∀ c ∈ cs, c.start.nodeId ∈ ns.map Node.id ∧ c.endp.nodeId ∈ ns.map Node.id)
    {s x : String} (hs : s ∈ ns.map Node.id) (h : NetReach cs s x) :
    x ∈ ns.map Node.id := by
  induction h with
  | refl => exact hs
  | @tail b c _ hbc _ =>
      rw [adjacency_spec] at hbc
      rcases hbc with ⟨d, hd, ⟨_, h2⟩ | ⟨_, h2⟩⟩
      · rw [← h2]; exact (hcs d hd).2
      · rw [← h2]; exact (hcs d hd).1

/-! ### The qualification predicate and the emitted-network contract -/

def netIds (net : Network) : List String := net.nodes.map NetNode.id

/-- What C1 asserts of every returned network: its node ids are exactly
the seed's connected component, duplicate-free with at least 3 nodes; the
component has an input and an output node; the subgraph validation holds;
and the carried connections are exactly the induced subset. -/
def NetMatch (ns : List Node) (cs : List ConnData) (seed : String) (net : Network) : Prop :=
  (∀ x, x ∈ netIds net ↔ NetReach cs seed x) ∧
  (netIds net).Nodup ∧
  3 ≤ (netIds net).length ∧
  (∃ m ∈ ns, m.type = "input" ∧ NetReach cs seed m.id) ∧
  (∃ m ∈ ns, m.type = "output" ∧ NetReach cs seed m.id) ∧
  ValidSubsetProp ns cs (NetReach cs seed) ∧
  net.connections = (cs.filter (fun c =>
      c.start.nodeId ∈ netIds net ∧ c.endp.nodeId ∈ netIds net)).map projConn

/-- A component qualifies for emission: it has at least 3 distinct nodes,
an input node, an output node, and passes the subgraph validation. -/
def Qualifies (ns : List Node) (cs : List ConnData) (seed : String) : Prop :=
  (∃ l : List String, l.Nodup ∧ 3 ≤ l.length ∧ ∀ x ∈ l, NetReach cs seed x) ∧
  (∃ m ∈ ns, m.type = "input" ∧ NetReach cs seed m.id) ∧
  (∃ m ∈ ns, m.type = "output" ∧ NetReach cs seed m.id) ∧
  ValidSubsetProp ns cs (NetReach cs seed)

theorem incidentIn_congr {cs : List ConnData} {P Q : String → Prop}
    (h : ∀ x, P x ↔ Q x) (id : String) :
    IncidentIn cs P id ↔ IncidentIn cs Q id := by
  unfold IncidentIn
  constructor
  · intro ⟨c, hc, p1, p2, ho⟩
    exact ⟨c, hc, (h _).mp p1, (h _).mp p2, ho⟩
  · intro ⟨c, hc, p1, p2, ho⟩
    exact ⟨c, hc, (h _).mpr p1, (h _).mpr p2, ho⟩

theorem validSubsetProp_congr {ns : List Node} {cs : List ConnData}
    {P Q : String → Prop} (h : ∀ x, P x ↔ Q x) :
    ValidSubsetProp ns cs P ↔ ValidSubsetProp ns cs Q := by
  unfold ValidSubsetProp
  apply and_congr
  · exact ⟨fun ⟨m, hm, hp, ht⟩ => ⟨m, hm, (h _).mp hp, ht⟩,
      fun ⟨m, hm, hp, ht⟩ => ⟨m, hm, (h _).mpr hp, ht⟩⟩
  apply and_congr
  · exact ⟨fun ⟨m, hm, hp, ht⟩ => ⟨m, hm, (h _).mp hp, ht⟩,
      fun ⟨m, hm, hp, ht⟩ => ⟨m, hm, (h _).mpr hp, ht⟩⟩
  apply and_congr
  · exact ⟨fun ⟨c, hc, p1, p2⟩ => ⟨c, hc, (h _).mp p1, (h _).mp p2⟩,
      fun ⟨c, hc, p1, p2⟩ => ⟨c, hc, (h _).mpr p1, (h _).mpr p2⟩⟩
  apply and_congr
  · exact ⟨fun ⟨m, hm, ht, hp, hi⟩ => ⟨m, hm, ht, (h _).mp hp, (incidentIn_congr h _).mp hi⟩,
      fun ⟨m, hm, ht, hp, hi⟩ => ⟨m, hm, ht, (h _).mpr hp, (incidentIn_congr h _).mpr hi⟩⟩
  apply and_congr
  · exact ⟨fun ⟨m, hm, ht, hp, hi⟩ => ⟨m, hm, ht, (h _).mp hp, (incidentIn_congr h _).mp hi⟩,
      fun ⟨m, hm, ht, hp, hi⟩ => ⟨m, hm, ht, (h _).mpr hp, (incidentIn_congr h _).mpr hi⟩⟩
  apply and_congr
  · exact ⟨fun hf m hm hq => (incidentIn_congr h _).mp (hf m hm ((h _).mpr hq)),
      fun hf m hm hp => (incidentIn_congr h _).mpr (hf m hm ((h _).mp hp))⟩
  · exact ⟨fun hf m hm hq => hf m hm ((h _).mpr hq),
      fun hf m hm hp => hf m hm ((h _).mp hp)⟩

theorem qualifies_congr {ns : List Node} {cs : List ConnData} {a b : String}
    (hiff : ∀ x, NetReach cs a x ↔ NetReach cs b x) :
    Qualifies ns cs a ↔ Qualifies ns cs b := by
  unfold Qualifies
  apply and_congr
  · exact ⟨fun ⟨l, h1, h2, h3⟩ => ⟨l, h1, h2, fun x hx => (hiff x).mp (h3 x hx)⟩,
      fun ⟨l, h1, h2, h3⟩ => ⟨l, h1, h2, fun x hx => (hiff x).mpr (h3 x hx)⟩⟩
  apply and_congr
  · exact ⟨fun ⟨m, hm, ht, hr⟩ => ⟨m, hm, ht, (hiff _).mp hr⟩,
      fun ⟨m, hm, ht, hr⟩ => ⟨m, hm, ht, (hiff _).mpr hr⟩⟩
  apply and_congr
  · exact ⟨fun ⟨m, hm, ht, hr⟩ => ⟨m, hm, ht, (hiff _).mp hr⟩,
      fun ⟨m, hm, ht, hr⟩ => ⟨m, hm, ht, (hiff _).mpr hr⟩⟩
  · exact validSubsetProp_congr hiff

theorem netMatch_congr {ns : List Node} {cs : List ConnData} {a b : String}
    (hiff : ∀ x, NetReach cs a x ↔ NetReach cs b x) (net : Network) :
    NetMatch ns cs a net ↔ NetMatch ns cs b net := by
  unfold NetMatch
  apply and_congr
  · exact ⟨fun h x => (h x).trans (hiff x), fun h x => (h x).trans (hiff x).symm⟩
  apply and_congr Iff.rfl
  apply and_congr Iff.rfl
  apply and_congr
  · exact ⟨fun ⟨m, hm, ht, hr⟩ => ⟨m, hm, ht, (hiff _).mp hr⟩,
      fun ⟨m, hm, ht, hr⟩ => ⟨m, hm, ht, (hiff _).mpr hr⟩⟩
  apply and_congr
  · exact ⟨fun ⟨m, hm, ht, hr⟩ => ⟨m, hm, ht, (hiff _).mp hr⟩,
      fun ⟨m, hm, ht, hr⟩ => ⟨m, hm, ht, (hiff _).mpr hr⟩⟩
  exact and_congr (validSubsetProp_congr hiff) Iff.rfl

theorem detectStep_visited (ns : List Node) (cs : List ConnData)
    (adj : String → List String) (node : Node) (V : List String)
    (networks : List Network) (h : node.id ∈ V) :
    detectStep ns cs adj node V networks = (V, networks) := by
  unfold detectStep
  rw [if_pos h]

theorem nodup_length_le {l comp : List String} (hl : l.Nodup) (hcomp : comp.Nodup)
    (hsub : ∀ x ∈ l, x ∈ comp) : l.length ≤ comp.length := by
  rw [← List.toFinset_card_of_nodup hl, ← List.toFinset_card_of_nodup hcomp]
  apply Finset.card_le_card
  intro x hx
  rw [List.mem_toFinset] at hx ⊢
  exact hsub x hx

/-- One iteration of the component loop on an unvisited seed: the DFS
collects the seed's component, marks it visited, and appends a network
satisfying the C1 contract iff the component qualifies. -/
theorem detectStep_unvisited (ns : List Node) (cs : List ConnData)
    (hids : (ns.map Node.id).Nodup)
    (hcs : ∀ c ∈ cs, c.start.nodeId ∈ ns.map Node.id ∧ c.endp.nodeId ∈ ns.map Node.id)
    (node : Node) (hnode : node ∈ ns)
    (V : List String) (networks : List Network)
    (hVclosed : ∀ v ∈ V, ∀ y ∈ adjacency cs v, y ∈ V)
    (hn : node.id ∉ V) :
    (∀ x, x ∈ (detectStep ns cs (adjacency cs) node V networks).1 ↔
        x ∈ V ∨ NetReach cs node.id x) ∧
    (∀ v ∈ (detectStep ns cs (adjacency cs) node V networks).1,
        ∀ y ∈ adjacency cs v, y ∈ (detectStep ns cs (adjacency cs) node V networks).1) ∧
    (Qualifies ns cs node.id →
      ∃ net, (detectStep ns cs (adjacency cs) node V networks).2 = networks ++ [net] ∧
        NetMatch ns cs node.id net) ∧
    (¬ Qualifies ns cs node.id →
      (detectStep ns cs (adjacency cs) node V networks).2 = networks) := by
  have hadj : ∀ x y, y ∈ adjacency cs x → x ∈ ns.map Node.id ∧ y ∈ ns.map Node.id := by
    intro x y hy
    rw [adjacency_spec] at hy
    rcases hy with ⟨c, hc, ⟨h1, h2⟩ | ⟨h1, h2⟩⟩
    · exact ⟨h1 ▸ (hcs c hc).1, h2 ▸ (hcs c hc).2⟩
    · exact ⟨h1 ▸ (hcs c hc).2, h2 ▸ (hcs c hc).1⟩
  have hsym := adjacency_symm cs
  have hseedall : node.id ∈ ns.map Node.id := List.mem_map_of_mem Node.id hnode
  have huc : unvisitedCount (ns.map Node.id) ⟨V, []⟩ ≤ ns.length := by
    unfold unvisitedCount
    calc ((ns.map Node.id).toFinset \ (⟨V, []⟩ : DfsState).visited.toFinset).card
        ≤ (ns.map Node.id).toFinset.card := Finset.card_le_card Finset.sdiff_subset
      _ ≤ (ns.map Node.id).length := List.toFinset_card_le _
      _ = ns.length := List.length_map ns Node.id
  obtain ⟨hcompiff, hcompnodup, hvisiff, hvisclosed⟩ :=
    dfs_component (adjacency cs) (ns.map Node.id) hadj hsym ns.length node.id V
      huc hVclosed hseedall hn
  set st := dfsNode (adjacency cs) ns.length node.id ⟨V, []⟩ with hst
  have hcompsub : ∀ i ∈ st.comp, i ∈ ns.map Node.id := by
    intro i hi
    exact netReach_mem_ids ns cs hcs hseedall ((hcompiff i).mp hi)
  have hobjmem : ∀ m, m ∈ st.comp.filterMap (fun nodeId => ns.find? (fun n => n.id = nodeId)) ↔
      m ∈ ns ∧ NetReach cs node.id m.id := by
    intro m
    rw [objects_mem ns hids st.comp m]
    exact and_congr_right (fun _ => hcompiff m.id)
  have hobjids : (st.comp.filterMap (fun nodeId => ns.find? (fun n => n.id = nodeId))).map Node.id
      = st.comp := objects_map_id ns st.comp hcompsub
  have hKiff : ∀ c, c ∈ cs.filter (fun conn =>
      conn.start.nodeId ∈ st.comp ∧ conn.endp.nodeId ∈ st.comp) ↔
      c ∈ cs ∧ NetReach cs node.id c.start.nodeId ∧ NetReach cs node.id c.endp.nodeId := by
    intro c
    rw [List.mem_filter]
    constructor
    · intro ⟨h1, h2⟩
      simp only [decide_eq_true_eq] at h2
      exact ⟨h1, (hcompiff _).mp h2.1, (hcompiff _).mp h2.2⟩
    · intro ⟨h1, h2, h3⟩
      exact ⟨h1, by simp only [decide_eq_true_eq]
                    exact ⟨(hcompiff _).mpr h2, (hcompiff _).mpr h3⟩⟩
  have hvalid : validateNetworkSubset
      (st.comp.filterMap (fun nodeId => ns.find? (fun n => n.id = nodeId)))
      (cs.filter (fun conn => conn.start.nodeId ∈ st.comp ∧ conn.endp.nodeId ∈ st.comp)) = true ↔
      ValidSubsetProp ns cs (NetReach cs node.id) :=
    validateNetworkSubset_prop ns cs (NetReach cs node.id) _ _ hobjmem hKiff
  have hasInput_iff : ((st.comp.filterMap (fun nodeId => ns.find? (fun n => n.id = nodeId))).any
      (fun node => node.type = "input") = true) ↔
      ∃ m ∈ ns, m.type = "input" ∧ NetReach cs node.id m.id := by
    rw [List.any_eq_true]
    constructor
    · intro ⟨m, hm, ht⟩
      obtain ⟨h1, h2⟩ := (hobjmem m).mp hm
      exact ⟨m, h1, by simpa using ht, h2⟩
    · intro ⟨m, hm, ht, hr⟩
      exact ⟨m, (hobjmem m).mpr ⟨hm, hr⟩, by simpa using ht⟩
  have hasOutput_iff : ((st.comp.filterMap (fun nodeId => ns.find? (fun n => n.id = nodeId))).any
      (fun node => node.type = "output") = true) ↔
      ∃ m ∈ ns, m.type = "output" ∧ NetReach cs node.id m.id := by
    rw [List.any_eq_true]
    constructor
    · intro ⟨m, hm, ht⟩
      obtain ⟨h1, h2⟩ := (hobjmem m).mp hm
      exact ⟨m, h1, by simpa using ht, h2⟩
    · intro ⟨m, hm, ht, hr⟩
      exact ⟨m, (hobjmem m).mpr ⟨hm, hr⟩, by simpa using ht⟩
  have hlen_iff : (3 ≤ st.comp.length) ↔
      ∃ l : List String, l.Nodup ∧ 3 ≤ l.length ∧ ∀ x ∈ l, NetReach cs node.id x := by
    constructor
    · intro h
      exact ⟨st.comp, hcompnodup, h, fun x hx => (hcompiff x).mp hx⟩
    · intro ⟨l, h1, h2, h3⟩
      have hsub : ∀ x ∈ l, x ∈ st.comp := fun x hx => (hcompiff x).mpr (h3 x hx)
      exact le_trans h2 (nodup_length_le h1 hcompnodup hsub)
  have hstep : detectStep ns cs (adjacency cs) node V networks =
      (st.visited,
       if ((st.comp.filterMap (fun nodeId => ns.find? (fun n => n.id = nodeId))).any
            (fun node => node.type = "input") = true) ∧
          ((st.comp.filterMap (fun nodeId => ns.find? (fun n => n.id = nodeId))).any
            (fun node => node.type = "output") = true) ∧
          3 ≤ st.comp.length then
        if validateNetworkSubset
            (st.comp.filterMap (fun nodeId => ns.find? (fun n => n.id = nodeId)))
            (cs.filter (fun conn =>
              conn.start.nodeId ∈ st.comp ∧ conn.endp.nodeId ∈ st.comp)) = true then
          networks ++ [{
            name := "Network " ++ toString (networks.length + 1),
            nodes := (st.comp.filterMap (fun nodeId =>
              ns.find? (fun n => n.id = nodeId))).map projNode,
            connections := (cs.filter (fun conn =>
              conn.start.nodeId ∈ st.comp ∧ conn.endp.nodeId ∈ st.comp)).map projConn,
            nodeCount := st.comp.length,
            connectionCount := (cs.filter (fun conn =>
              conn.start.nodeId ∈ st.comp ∧ conn.endp.nodeId ∈ st.comp)).length }]
        else networks
       else networks) := by
    rw [detectStep, if_neg hn]
  rw [hstep]
  refine ⟨hvisiff, hvisclosed, ?_, ?_⟩
  · intro hq
    obtain ⟨q1, q2, q3, q4⟩ := hq
    rw [if_pos ⟨hasInput_iff.mpr q2, hasOutput_iff.mpr q3, hlen_iff.mpr q1⟩,
      if_pos (hvalid.mpr q4)]
    refine ⟨_, rfl, ?_⟩
    have hnetids : netIds {
        name := "Network " ++ toString (networks.length + 1),
        nodes := (st.comp.filterMap (fun nodeId =>
          ns.find? (fun n => n.id = nodeId))).map projNode,
        connections := (cs.filter (fun conn =>
          conn.start.nodeId ∈ st.comp ∧ conn.endp.nodeId ∈ st.comp)).map projConn,
        nodeCount := st.comp.length,
        connectionCount := (cs.filter (fun conn =>
          conn.start.nodeId ∈ st.comp ∧ conn.endp.nodeId ∈ st.comp)).length } = st.comp := by
      show ((st.comp.filterMap (fun nodeId =>
        ns.find? (fun n => n.id = nodeId))).map projNode).map NetNode.id = st.comp
      rw [List.map_map]
      exact hobjids
    unfold NetMatch
    rw [hnetids]
    refine ⟨hcompiff, hcompnodup, hlen_iff.mpr q1, q2, q3, q4, rfl⟩
  · intro hq
    by_cases hcond : ((st.comp.filterMap (fun nodeId => ns.find? (fun n => n.id = nodeId))).any
          (fun node => node.type = "input") = true) ∧
        ((st.comp.filterMap (fun nodeId => ns.find? (fun n => n.id = nodeId))).any
          (fun node => node.type = "output") = true) ∧
        3 ≤ st.comp.length
    · rw [if_pos hcond]
      by_cases hv : validateNetworkSubset
          (st.comp.filterMap (fun nodeId => ns.find? (fun n => n.id = nodeId)))
          (cs.filter (fun conn =>
            conn.start.nodeId ∈ st.comp ∧ conn.endp.nodeId ∈ st.comp)) = true
      · exact absurd ⟨hlen_iff.mp hcond.2.2, hasInput_iff.mp hcond.1,
          hasOutput_iff.mp hcond.2.1, hvalid.mp hv⟩ hq
      · rw [if_neg hv]
    · rw [if_neg hcond]

theorem detectStep_append (ns : List Node) (cs : List ConnData)
    (adj : String → List String) (node : Node) (V : List String)
    (networks : List Network) :
    ∃ tail, (detectStep ns cs adj node V networks).2 = networks ++ tail := by
  by_cases h : node.id ∈ V
  · rw [detectStep_visited ns cs adj node V networks h]
    exact ⟨[], (List.append_nil _).symm⟩
  · simp only [detectStep, if_neg h]
    split
    · split
      · exact ⟨_, rfl⟩
      · exact ⟨[], (List.append_nil _).symm⟩
    · exact ⟨[], (List.append_nil _).symm⟩

theorem detectLoop_mono (ns : List Node) (cs : List ConnData)
    (adj : String → List String) :
    ∀ (rem : List Node) (V : List String) (networks : List Network) (net : Network),
      net ∈ networks → net ∈ detectLoop ns cs adj rem V networks := by
  intro rem
  induction rem with
  | nil => intro V networks net h; simp only [detectLoop]; exact h
  | cons node rest ih =>
    intro V networks net h
    simp only [detectLoop]
    apply ih
    obtain ⟨tail, htail⟩ := detectStep_append ns cs adj node V networks
    rw [htail]
    exact List.mem_append_left _ h

/-- Induction over the node list: the loop keeps the visited set
adjacency-closed, every emitted network matches some seed's component, and
every remaining node whose component qualifies gets a matching network. -/
theorem detectLoop_spec (ns : List Node) (cs : List ConnData)
    (hids : (ns.map Node.id).Nodup)
    (hcs : ∀ c ∈ cs, c.start.nodeId ∈ ns.map Node.id ∧ c.endp.nodeId ∈ ns.map Node.id) :
    ∀ (rem : List Node) (V : List String) (networks : List Network),
    (∀ n ∈ rem, n ∈ ns) →
    (∀ v ∈ V, ∀ y ∈ adjacency cs v, y ∈ V) →
    (∀ net ∈ networks, ∃ seed, seed ∈ ns.map Node.id ∧ NetMatch ns cs seed net) →
    (∀ v ∈ V, Qualifies ns cs v →
      ∃ net ∈ networks, NetMatch ns cs v net) →
    (∀ net ∈ detectLoop ns cs (adjacency cs) rem V networks,
      ∃ seed, seed ∈ ns.map Node.id ∧ NetMatch ns cs seed net) ∧
    (∀ n ∈ rem, Qualifies ns cs n.id →
      ∃ net ∈ detectLoop ns cs (adjacency cs) rem V networks, NetMatch ns cs n.id net) := by
  intro rem
  induction rem with
  | nil =>
    intro V networks _ _ hnets _
    simp only [detectLoop]
    exact ⟨hnets, fun n hn => absurd hn (List.not_mem_nil n)⟩
  | cons node rest ih =>
    intro V networks hrem hVclosed hnets hvis
    have hrest : ∀ n ∈ rest, n ∈ ns := fun n hn => hrem n (List.mem_cons_of_mem _ hn)
    have hnode : node ∈ ns := hrem node (List.mem_cons_self _ _)
    simp only [detectLoop]
    by_cases hmem : node.id ∈ V
    · rw [detectStep_visited ns cs (adjacency cs) node V networks hmem]
      obtain ⟨h1, h2⟩ := ih V networks hrest hVclosed hnets hvis
      refine ⟨h1, ?_⟩
      intro n hn hq
      rcases List.mem_cons.mp hn with heq | hn'
      · subst heq
        obtain ⟨net, hnet, hmatch⟩ := hvis n.id hmem hq
        exact ⟨net, detectLoop_mono ns cs (adjacency cs) rest V networks net hnet, hmatch⟩
      · exact h2 n hn' hq
    · obtain ⟨hviter, hclosed2, hqpos, hqneg⟩ :=
        detectStep_unvisited ns cs hids hcs node hnode V networks hVclosed hmem
      by_cases hq : Qualifies ns cs node.id
      · obtain ⟨net, hr2, hmatch⟩ := hqpos hq
        rw [hr2]
        have hnets' : ∀ m ∈ networks ++ [net],
            ∃ seed, seed ∈ ns.map Node.id ∧ NetMatch ns cs seed m := by
          intro m hm
          rcases List.mem_append.mp hm with hm | hm
          · exact hnets m hm
          · rw [List.mem_singleton] at hm
            subst hm
            exact ⟨node.id, List.mem_map_of_mem Node.id hnode, hmatch⟩
        have hvis' : ∀ v ∈ (detectStep ns cs (adjacency cs) node V networks).1,
            Qualifies ns cs v → ∃ m ∈ networks ++ [net], NetMatch ns cs v m := by
          intro v hv hqv
          rcases (hviter v).mp hv with hvV | hvr
          · obtain ⟨m, hm, hmm⟩ := hvis v hvV hqv
            exact ⟨m, List.mem_append_left _ hm, hmm⟩
          · have hpoint : ∀ x, NetReach cs v x ↔ NetReach cs node.id x :=
              fun x => (netReach_congr cs hvr x).symm
            exact ⟨net, List.mem_append_right _ (List.mem_singleton.mpr rfl),
              (netMatch_congr hpoint net).mpr hmatch⟩
        obtain ⟨h1, h2⟩ := ih (detectStep ns cs (adjacency cs) node V networks).1
          (networks ++ [net]) hrest hclosed2 hnets' hvis'
        refine ⟨h1, ?_⟩
        intro n hn hqn
        rcases List.mem_cons.mp hn with heq | hn'
        · subst heq
          exact ⟨net, detectLoop_mono ns cs (adjacency cs) rest _ _ net
            (List.mem_append_right _ (List.mem_singleton.mpr rfl)), hmatch⟩
        · exact h2 n hn' hqn
      · rw [hqneg hq]
        have hvis' : ∀ v ∈ (detectStep ns cs (adjacency cs) node V networks).1,
            Qualifies ns cs v → ∃ m ∈ networks, NetMatch ns cs v m := by
          intro v hv hqv
          rcases (hviter v).mp hv with hvV | hvr
          · exact hvis v hvV hqv
          · have hpoint : ∀ x, NetReach cs v x ↔ NetReach cs node.id x :=
              fun x => (netReach_congr cs hvr x).symm
            exact absurd ((qualifies_congr hpoint).mp hqv) hq
        obtain ⟨h1, h2⟩ := ih (detectStep ns cs (adjacency cs) node V networks).1
          networks hrest hclosed2 hnets hvis'
        refine ⟨h1, ?_⟩
        intro n hn hqn
        rcases List.mem_cons.mp hn with heq | hn'
        · subst heq
          exact absurd hqn hq
        · exact h2 n hn' hqn

/-- C1: `detectMultipleNetworks` surfaces exactly the qualifying connected
components.  Soundness: every returned network is, for some seed node id,
the full component of the seed (its node-id list enumerates without
duplicates precisely the ids connected to the seed through the undirected
connection edges, has at least 3 entries, the component holds an input and
an output node and passes the subset validation) and its connection list is
the induced subset, the stored connections with both endpoints in the
component.  Completeness: every node whose component qualifies (at least 3
distinct connected ids, a connected input, a connected output, subset
validation passes) is represented by a returned network matching its
component.  Hypotheses: node ids are distinct and connections reference
stored node ids, the store invariants of the builder UI. -/
theorem detectMultipleNetworks_components (ns : List Node) (cs : List ConnData)
    (hids : (ns.map Node.id).Nodup)
    (hcs : ∀ c ∈ cs, c.start.nodeId ∈ ns.map Node.id ∧ c.endp.nodeId ∈ ns.map Node.id) :
    (∀ net ∈ detectMultipleNetworks ns cs,
      ∃ seed, seed ∈ ns.map Node.id ∧ NetMatch ns cs seed net) ∧
    (∀ n ∈ ns, Qualifies ns cs n.id →
      ∃ net ∈ detectMultipleNetworks ns cs, NetMatch ns cs n.id net) := by
  unfold detectMultipleNetworks
  by_cases h0 : ns.length = 0 ∨ cs.length = 0
  · rw [if_pos h0]
    refine ⟨fun net hnet => absurd hnet (List.not_mem_nil net), ?_⟩
    intro n hn hq
    rcases h0 with h0 | h0
    · rw [List.length_eq_zero] at h0
      subst h0
      exact absurd hn (List.not_mem_nil n)
    · rw [List.length_eq_zero] at h0
      subst h0
      obtain ⟨-, -, -, hvsp⟩ := hq
      obtain ⟨-, -, ⟨c, hc, -⟩, -⟩ := hvsp
      exact absurd hc (List.not_mem_nil c)
  · rw [if_neg h0]
    exact detectLoop_spec ns cs hids hcs ns [] []
      (fun n hn => hn)
      (fun v hv => absurd hv (List.not_mem_nil v))
      (fun net hnet => absurd hnet (List.not_mem_nil net))
      (fun v hv => absurd hv (List.not_mem_nil v))

def detectW_ns : List Node :=
  [{ id := "node-1", type := "input" },
   { id := "node-2", type := "agent", subType := some "openai",
     config := { apiKey := some "k", model := some "m" } },
   { id := "node-3", type := "output" }]

def detectW_cs : List ConnData :=
  createConnection
    (createConnection [] { nodeId := "node-1", port := "output" }
      { nodeId := "node-2", port := "input" } "u1")
    { nodeId := "node-2", port := "output" } { nodeId := "node-3", port := "input" } "u2"

/-- Witness: a concrete three-node store (input, configured agent, output,
chained by two connections) satisfies both store invariants, so the C1
characterization applies to it. -/
theorem detectMultipleNetworks_components_witness :
    ((detectW_ns.map Node.id).Nodup ∧
      ∀ c ∈ detectW_cs, c.start.nodeId ∈ detectW_ns.map Node.id ∧
        c.endp.nodeId ∈ detectW_ns.map Node.id) ∧
    ((∀ net ∈ detectMultipleNetworks detectW_ns detectW_cs,
        ∃ seed, seed ∈ detectW_ns.map Node.id ∧ NetMatch detectW_ns detectW_cs seed net) ∧
      (∀ n ∈ detectW_ns, Qualifies detectW_ns detectW_cs n.id →
        ∃ net ∈ detectMultipleNetworks detectW_ns detectW_cs,
          NetMatch detectW_ns detectW_cs n.id net)) :=
  ⟨⟨by decide, by decide⟩,
    detectMultipleNetworks_components detectW_ns detectW_cs (by decide) (by decide)⟩

end FlowBuilder
